import Mathlib

/-!
Verification of the Flip 7 rules engine (`flip7_engine.py`) and the MCTS agent
(`mcts_agent.py`) of the `flip-seven-ai` repository, as a shallow embedding.

Machine conventions of the embedding:
* Python `int` is embedded as `ℤ` (or `ℕ` for quantities the code keeps
  non-negative by construction: indices, visit counts, the second-chance
  token counter, which is only decremented under a positivity guard).
* The result dictionaries returned by `GameState.apply_action` /
  `GameState._process_draw` are embedded as the `Outcome` structure; a field
  of type `Option _` is `none` exactly when the corresponding dictionary key
  is absent (`dict.get` on an absent key yields `None`, i.e. `Option.getD`
  mirrors `res.get('round_end')` truthiness tests).
* Exceptions (`ValueError` for illegal actions, `IndexError` for drawing from
  an empty deck) are embedded with `Except EngineError`.
* The recursion of `_process_draw` through `FlipThree` forced draws is
  embedded with a `fuel` parameter that bounds the nesting depth of
  `FlipThree` processing.  Each nesting level pops at least one card from the
  deck before recursing, so the depth is bounded by the deck size;
  `apply_action` passes the post-draw deck size as fuel, which therefore never
  runs out (fuel `0` is only ever reached with an empty deck, where the
  embedded base case returns exactly what the Python loop returns for an
  empty deck: `flipthree_done` with no forced draws).
-/

/-- Embedding of the `Card` dataclass (`flip7_engine.py`, lines 8-21): a tagged
value with kind `'number'`, `'modifier'`, `'mult'` or `'action'`; number and
modifier cards carry an integer value, action cards carry a name. -/
inductive Card where
  | number (value : ℤ)
  | modifier (value : ℤ)
  | mult
  | action (name : String)
deriving DecidableEq, Repr

/-- Embedding of the heterogeneous `'banked'` entry of the outcome dictionary:
`apply_action('stay')` stores the boolean `True`, the flip7 branch of
`_process_draw` stores the integer banked score. -/
inductive BankedVal where
  | flag (b : Bool)
  | amount (n : ℤ)
deriving DecidableEq, Repr

/-- Embedding of the outcome dictionaries of `apply_action` / `_process_draw`.
A field is `none` when the corresponding key is absent from the dictionary. -/
structure Outcome where
  result : String
  card : Option Card := none
  round_end : Option Bool := none
  banked : Option BankedVal := none
  draws : List Card := []
deriving DecidableEq, Repr

/-- Embedding of `GameState` (`flip7_engine.py`, lines 81-104).  The deck
object is flattened to its card list (`self.deck.cards`); its RNG plays no
role in the state machine itself. -/
structure GameState where
  num_players : ℕ
  player_totals : List ℤ
  current_player : ℕ
  deck : List Card
  current_numbers : List ℤ
  flat_modifiers : ℤ
  x2 : Bool
  second_chance_count : ℕ
  round_over : Bool
  winner : Option ℕ
deriving DecidableEq, Repr

/-- Embedding of `GameState.legal_actions` (lines 109-112). -/
def GameState.legal_actions (gs : GameState) : List String :=
  if gs.round_over || gs.winner.isSome then [] else ["hit", "stay"]

/-- Embedding of `GameState.game_over` (lines 238-239). -/
def GameState.game_over (gs : GameState) : Bool :=
  gs.winner.isSome

/-- Embedding of `GameState._sum_current_score` (lines 117-124):
`s = sum(numbers); if x2: s *= 2; s += flat_modifiers; if distinct >= 7: s += 15`. -/
def GameState.sum_current_score (gs : GameState) : ℤ :=
  let s := gs.current_numbers.sum
  let s := if gs.x2 then s * 2 else s
  let s := s + gs.flat_modifiers
  if 7 ≤ gs.current_numbers.dedup.length then s + 15 else s

/-- Shared tail of the two banking sites in the source (`_bank_current`,
lines 126-138, and the inline flip7 banking in `_process_draw`, lines
187-197): add `score` to the active player's total, reset the current line,
set `round_over`, and set the winner if the new total reaches 200. -/
def GameState.bank_with (gs : GameState) (score : ℤ) : GameState :=
  let totals := gs.player_totals.set gs.current_player
    (gs.player_totals.getD gs.current_player 0 + score)
  let gs1 := { gs with
    player_totals := totals
    current_numbers := []
    flat_modifiers := 0
    x2 := false
    second_chance_count := 0
    round_over := true }
  if 200 ≤ totals.getD gs1.current_player 0 then
    { gs1 with winner := some gs1.current_player }
  else gs1

/-- Embedding of `GameState._bank_current` (lines 126-138).  Note the guard:
`score = 0; if self.current_numbers: score = self._sum_current_score()` — an
empty line banks `0`, not the flat modifier. -/
def GameState.bank_current (gs : GameState) : GameState :=
  let score := if gs.current_numbers.isEmpty then 0 else gs.sum_current_score
  gs.bank_with score

/-- Embedding of `GameState._process_draw` (lines 165-236).  The
`for _ in range(3)` loop of the `FlipThree` branch is unrolled into its three
iterations (each iteration: stop if the deck is empty, pop a card, process it
recursively, stop with `flipthree_resolved` if the forced draw ended the
round).  `fuel` bounds the `FlipThree` nesting depth as described in the file
header; all other branches ignore it. -/
def process_draw (fuel : ℕ) (gs : GameState) (card : Card) : GameState × Outcome :=
  match card with
  | .number v =>
    if v ∈ gs.current_numbers then
      if 0 < gs.second_chance_count then
        ({ gs with second_chance_count := gs.second_chance_count - 1 },
          { result := "duplicate_discarded", card := some card })
      else
        ({ gs with
            current_numbers := []
            flat_modifiers := 0
            x2 := false
            second_chance_count := 0
            round_over := true },
          { result := "bust", card := some card, round_end := some true })
    else
      let gs1 := { gs with current_numbers := gs.current_numbers ++ [v] }
      if 7 ≤ gs1.current_numbers.dedup.length then
        let score := gs1.sum_current_score
        (gs1.bank_with score,
          { result := "flip7", card := some card,
            banked := some (.amount score), round_end := some true })
      else
        (gs1, { result := "number_added", card := some card })
  | .modifier m =>
      ({ gs with flat_modifiers := gs.flat_modifiers + m },
        { result := "modifier_added", card := some card })
  | .mult =>
      ({ gs with x2 := true }, { result := "x2_added", card := some card })
  | .action name =>
    if name = "Freeze" then
      let gs1 := gs.bank_current
      ({ gs1 with round_over := true },
        { result := "freeze", card := some card, round_end := some true })
    else if name = "FlipThree" then
      match fuel with
      | 0 => (gs, { result := "flipthree_done", card := some card, draws := [] })
      | fuel + 1 =>
        match gs.deck with
        | [] => (gs, { result := "flipthree_done", card := some card, draws := [] })
        | c1 :: r1 =>
          let p1 := process_draw fuel { gs with deck := r1 } c1
          if p1.2.round_end.getD false then
            (p1.1, { result := "flipthree_resolved", card := some card,
                     draws := [c1], round_end := some true })
          else
            match p1.1.deck with
            | [] => (p1.1, { result := "flipthree_done", card := some card, draws := [c1] })
            | c2 :: r2 =>
              let p2 := process_draw fuel { p1.1 with deck := r2 } c2
              if p2.2.round_end.getD false then
                (p2.1, { result := "flipthree_resolved", card := some card,
                         draws := [c1, c2], round_end := some true })
              else
                match p2.1.deck with
                | [] => (p2.1, { result := "flipthree_done", card := some card,
                                 draws := [c1, c2] })
                | c3 :: r3 =>
                  let p3 := process_draw fuel { p2.1 with deck := r3 } c3
                  if p3.2.round_end.getD false then
                    (p3.1, { result := "flipthree_resolved", card := some card,
                             draws := [c1, c2, c3], round_end := some true })
                  else
                    (p3.1, { result := "flipthree_done", card := some card,
                             draws := [c1, c2, c3] })
    else if name = "SecondChance" then
      ({ gs with second_chance_count := gs.second_chance_count + 1 },
        { result := "secondchance_added", card := some card })
    else
      (gs, { result := "unknown_card", card := some card })

/-- Errors of the engine: `ValueError` for an action not in `legal_actions`
(line 145) and `IndexError` for a draw from an empty deck (line 65). -/
inductive EngineError where
  | illegalAction (action : String)
  | emptyDeck
deriving DecidableEq, Repr

/-- Embedding of `GameState.apply_action` (lines 140-163): reject illegal
actions; `stay` banks the current line and advances the player; `hit` draws
the front card and dispatches on it, advancing the player when the outcome
carries the `round_end` flag. -/
def GameState.apply_action (gs0 : GameState) (action : String) :
    Except EngineError (GameState × Outcome) :=
  if action ∈ gs0.legal_actions then
    let gs := { gs0 with round_over := false }
    if action = "stay" then
      let gs1 := gs.bank_current
      let gs2 := { gs1 with
        current_player := (gs1.current_player + 1) % gs1.num_players
        round_over := false }
      .ok (gs2, { result := "stayed", banked := some (.flag true) })
    else
      match gs.deck with
      | [] => .error .emptyDeck
      | card :: rest =>
        let gs1 := { gs with deck := rest }
        let pr := process_draw rest.length gs1 card
        if pr.2.round_end.getD false then
          .ok ({ pr.1 with
            current_player := (pr.1.current_player + 1) % pr.1.num_players
            round_over := false }, pr.2)
        else
          .ok (pr.1, pr.2)
  else
    .error (.illegalAction action)

/-- Embedding of the card list built by `Flip7Deck.__init__` (lines 33-56):
number cards `0×1, 1×1, n×n` for `n = 2..12`, modifiers `+2..+10` one each,
two `Freeze`, two `FlipThree`, one `SecondChance`, one `x2` multiplier.  The
construction is independent of the seed argument (the seed only initialises
the RNG used later by `shuffle`). -/
def initial_cards : List Card :=
  ([Card.number 0, Card.number 1] ++
    (List.range' 2 11).flatMap (fun n => List.replicate n (Card.number (n : ℤ)))) ++
  (List.range' 2 9).map (fun m => Card.modifier (m : ℤ)) ++
  (List.replicate 2 (Card.action "Freeze") ++
    List.replicate 2 (Card.action "FlipThree") ++
    [Card.action "SecondChance"] ++ [Card.mult])

/-- Modelled from the spec: the seedable random source used by
`Flip7Deck.shuffle` is Python's `random.Random`, standard-library code that is
not part of this repository.  The spec requires of it only that it is a
deterministic seedable source ("Shuffle reorders in place using a seedable
random source; reseeding must be supported to allow deterministic replay and
determinization").  It is modelled as a linear congruential generator. -/
def lcg_next (s : ℕ) : ℕ := (1103515245 * s + 12345) % 4294967296

/-- Modelled from the spec: the seeded in-place reordering performed by
`Flip7Deck.shuffle(seed)` (lines 58-61), i.e. `random.Random(seed).shuffle`,
modelled as a Fisher-Yates style shuffle driven by `lcg_next`.  It is a pure
function of the seed and the card list, which is precisely the determinism
the spec demands of the seeded source. -/
def shuffle_seeded (s : ℕ) (l : List Card) : List Card :=
  if h : l = [] then []
  else
    let j := s % l.length
    l.getD j Card.mult :: shuffle_seeded (lcg_next s) (l.eraseIdx j)
termination_by l.length
decreasing_by
  have hl : 0 < l.length := List.length_pos.mpr h
  have hj : s % l.length < l.length := Nat.mod_lt _ hl
  simp [List.length_eraseIdx, hj]
  omega

/-- Embedding of `GameState.__init__` with a fixed seed (lines 91-104,
together with `Flip7Deck.__init__` and `Flip7Deck.shuffle`): fresh totals,
player 0 to act, the freshly built 94-card deck shuffled by the seeded
source, empty line, no winner. -/
def GameState.init (num_players : ℕ) (seed : ℕ) : GameState :=
  { num_players := num_players
    player_totals := List.replicate num_players 0
    current_player := 0
    deck := shuffle_seeded seed initial_cards
    current_numbers := []
    flat_modifiers := 0
    x2 := false
    second_chance_count := 0
    round_over := false
    winner := none }

/-!  Helper lemmas shared by several claims. -/

/-- Concrete state used as the C1 counterexample: an empty collected line
with flat modifier `5` and the multiplier off. -/
def emptyLineModifierState : GameState :=
  { num_players := 2
    player_totals := [0, 0]
    current_player := 0
    deck := []
    current_numbers := []
    flat_modifiers := 5
    x2 := false
    second_chance_count := 0
    round_over := false
    winner := none }

/-- Concrete state with collected numbers `{3, 4}`, flat modifier `5`,
multiplier off: the spec's worked scoring example. -/
def scoreState34 : GameState :=
  { num_players := 2
    player_totals := [0, 0]
    current_player := 0
    deck := []
    current_numbers := [3, 4]
    flat_modifiers := 5
    x2 := false
    second_chance_count := 0
    round_over := false
    winner := none }

/-- Concrete state for the `duplicate_bust` witness: the top of the deck is a
`3` and a `3` is already collected with no second chance in hand. -/
def bustWitnessState : GameState :=
  { num_players := 2
    player_totals := [17, 9]
    current_player := 0
    deck := [Card.number 3, Card.mult]
    current_numbers := [3]
    flat_modifiers := 4
    x2 := true
    second_chance_count := 0
    round_over := false
    winner := none }

/-- Concrete state for the `flipthree_bounded` witness: the next three cards
are `1`, `1`, `2`, so the second forced draw busts (duplicate `1`). -/
def ftWitnessState : GameState :=
  { num_players := 2
    player_totals := [0, 0]
    current_player := 0
    deck := [Card.number 1, Card.number 1, Card.number 2]
    current_numbers := []
    flat_modifiers := 0
    x2 := false
    second_chance_count := 0
    round_over := false
    winner := none }

/-- A freshly created game (`GameState.__init__`): any player count, any
initial deck ordering, zero totals, player 0 to act, empty line, no winner. -/
def InitialState (gs : GameState) : Prop :=
  ∃ n cards, gs =
    { num_players := n
      player_totals := List.replicate n 0
      current_player := 0
      deck := cards
      current_numbers := []
      flat_modifiers := 0
      x2 := false
      second_chance_count := 0
      round_over := false
      winner := none }

/-- One successful engine step: some action is applied successfully through
`apply_action` (the only mutation entrypoint of the engine). -/
def EngineStep (gs gs' : GameState) : Prop :=
  ∃ action o, gs.apply_action action = .ok (gs', o)

/-- States reachable from some freshly created game by engine steps. -/
def ReachableState (gs : GameState) : Prop :=
  ∃ gs0, InitialState gs0 ∧ Relation.ReflTransGen EngineStep gs0 gs

/-- Invariant transported by one card dispatch: starting winnerless with all
totals below 200, (a) a dispatch that does not end the round changes neither
the totals nor the winner, (b) any winner set has total at least 200, and
(c) if no winner is set all totals are still below 200. -/
def PDInv (gs : GameState) (pr : GameState × Outcome) : Prop :=
  (pr.2.round_end.getD false = false →
      pr.1.player_totals = gs.player_totals ∧ pr.1.winner = none) ∧
  (∀ p : ℕ, pr.1.winner = some p → 200 ≤ pr.1.player_totals[p]?.getD 0) ∧
  (pr.1.winner = none → ∀ i : ℕ, pr.1.player_totals[i]?.getD 0 < 200)

/-- Start state of the `winner_invariant_terminal` witness game: one player,
a single 200-valued number card on the deck. -/
def winWitnessStart : GameState :=
  { num_players := 1
    player_totals := [0]
    current_player := 0
    deck := [Card.number 200]
    current_numbers := []
    flat_modifiers := 0
    x2 := false
    second_chance_count := 0
    round_over := false
    winner := none }

/-- Middle state of the witness game: the 200-valued number collected. -/
def winWitnessMid : GameState :=
  { num_players := 1
    player_totals := [0]
    current_player := 0
    deck := []
    current_numbers := [200]
    flat_modifiers := 0
    x2 := false
    second_chance_count := 0
    round_over := false
    winner := none }

/-- Terminal state reached in the `winner_invariant_terminal` witness game:
one player banked a 200-valued line, so the winner is set. -/
def winWitnessState : GameState :=
  { num_players := 1
    player_totals := [200]
    current_player := 0
    deck := []
    current_numbers := []
    flat_modifiers := 0
    x2 := false
    second_chance_count := 0
    round_over := false
    winner := some 0 }

/-- Scalar attributes of a `GameState` object plus the heap addresses of its
three mutable list components. -/
structure GSCell where
  num_players : ℕ
  current_player : ℕ
  flat_modifiers : ℤ
  x2 : Bool
  second_chance_count : ℕ
  round_over : Bool
  winner : Option ℕ
  totals_addr : ℕ
  numbers_addr : ℕ
  deck_addr : ℕ
deriving DecidableEq, Repr

/-- One heap cell: a `GameState` object, an integer list (`player_totals` or
`current_numbers`), or a card list (`deck.cards`). -/
inductive Cell where
  | gsc (d : GSCell)
  | ints (l : List ℤ)
  | cards (l : List Card)
deriving DecidableEq, Repr

/-- The object heap: cells addressed by list index, allocation appends. -/
structure Heap where
  store : List Cell
deriving DecidableEq, Repr

/-- Dereference an address. -/
def Heap.lookup (h : Heap) (a : ℕ) : Option Cell := h.store[a]?

/-- In-place update of the cell at an address (no-op out of range, which
never happens for valid references). -/
def Heap.update (h : Heap) (a : ℕ) (c : Cell) : Heap := ⟨h.store.set a c⟩

/-- Allocate a fresh cell, returning its address. -/
def Heap.alloc (h : Heap) (c : Cell) : Heap × ℕ := (⟨h.store ++ [c]⟩, h.store.length)

/-- Read a whole `GameState` value out of the heap through an object
reference (follows the three component addresses). -/
def readGS (h : Heap) (a : ℕ) : Option GameState :=
  match h.lookup a with
  | some (.gsc d) =>
    match h.lookup d.totals_addr, h.lookup d.numbers_addr, h.lookup d.deck_addr with
    | some (.ints t), some (.ints ns), some (.cards dk) =>
      some { num_players := d.num_players
             player_totals := t
             current_player := d.current_player
             deck := dk
             current_numbers := ns
             flat_modifiers := d.flat_modifiers
             x2 := d.x2
             second_chance_count := d.second_chance_count
             round_over := d.round_over
             winner := d.winner }
    | _, _, _ => none
  | _ => none

/-- Write a `GameState` value back through an object reference: the scalar
attributes go into the object cell, the list components are written in place
at the addresses the object already holds (mutation of `self`). -/
def writeGS (h : Heap) (a : ℕ) (gs : GameState) : Heap :=
  match h.lookup a with
  | some (.gsc d) =>
    let h1 := h.update d.totals_addr (.ints gs.player_totals)
    let h2 := h1.update d.numbers_addr (.ints gs.current_numbers)
    let h3 := h2.update d.deck_addr (.cards gs.deck)
    h3.update a (.gsc { d with
      num_players := gs.num_players
      current_player := gs.current_player
      flat_modifiers := gs.flat_modifiers
      x2 := gs.x2
      second_chance_count := gs.second_chance_count
      round_over := gs.round_over
      winner := gs.winner })
  | _ => h

/-- Allocate a fresh, fully self-contained `GameState` object holding the
value `gs`: fresh cells for the three list components and a fresh object
cell pointing at them. -/
def allocFreshGS (h : Heap) (gs : GameState) : Heap × ℕ :=
  let r1 := h.alloc (.ints gs.player_totals)
  let r2 := r1.1.alloc (.ints gs.current_numbers)
  let r3 := r2.1.alloc (.cards gs.deck)
  r3.1.alloc (.gsc
    { num_players := gs.num_players
      current_player := gs.current_player
      flat_modifiers := gs.flat_modifiers
      x2 := gs.x2
      second_chance_count := gs.second_chance_count
      round_over := gs.round_over
      winner := gs.winner
      totals_addr := r1.2
      numbers_addr := r2.2
      deck_addr := r3.2 })

/-- The empty `GameState` value (used only for deep-copying a malformed
reference, which cannot happen on well-formed heaps). -/
def emptyGS : GameState :=
  { num_players := 0
    player_totals := []
    current_player := 0
    deck := []
    current_numbers := []
    flat_modifiers := 0
    x2 := false
    second_chance_count := 0
    round_over := false
    winner := none }

/-- Embedding of `GameState.clone` (`flip7_engine.py`, lines 106-107), i.e.
`copy.deepcopy`: allocate fresh cells for the three list components and a
fresh object cell pointing at them; nothing is shared with the source. -/
def cloneGS (h : Heap) (a : ℕ) : Heap × ℕ :=
  allocFreshGS h ((readGS h a).getD emptyGS)

/-- Embedding of `random.shuffle(st.deck.cards)`: replace the card list at
the object's deck address by a reordering `f` of it (in place). -/
def shuffleAt (f : List Card → List Card) (h : Heap) (a : ℕ) : Heap :=
  match h.lookup a with
  | some (.gsc d) =>
    match h.lookup d.deck_addr with
    | some (.cards dk) => h.update d.deck_addr (.cards (f dk))
    | _ => h
  | _ => h

/-- `st.apply_action(act)` on a heap object: read the state, run the pure
engine transition, write the successor back through the same reference.  An
engine error leaves the heap unchanged and yields no outcome. -/
def apply_action_heap (h : Heap) (a : ℕ) (action : String) : Heap × Option Outcome :=
  match readGS h a with
  | some gs =>
    match gs.apply_action action with
    | .ok (gs', o) => (writeGS h a gs', some o)
    | .error _ => (h, none)
  | none => (h, none)

/-- Embedding of the `Node` bookkeeping of `mcts_agent.py` (lines 12-19).
The tree is flattened to an association list from root paths (the sequence
of actions from the root) to node data; `childActions` records the keys of
the `children` dict in insertion order, and the parent back-reference is the
path prefix.  `stateAddr` is the heap reference of `node.state`. -/
structure NodeData where
  stateAddr : ℕ
  childActions : List String
  visits : ℕ
  value : ℝ

/-- The search tree: association list from paths to node data. -/
abbrev MTree := List (List String × NodeData)

/-- Node stored at a path, if any. -/
def treeGet (t : MTree) (p : List String) : Option NodeData :=
  (t.find? (fun e => e.1 == p)).map (fun e => e.2)

/-- Replace the node data stored at a path. -/
def treeSet (t : MTree) (p : List String) (d : NodeData) : MTree :=
  t.map (fun e => if e.1 == p then (e.1, d) else e)

/-- Embedding of `Node.ucb1` (`mcts_agent.py`, lines 21-24): infinite for an
unvisited node, otherwise mean value plus the exploration bonus
`c * sqrt(ln(parentVisits) / visits)`. -/
noncomputable def ucb1 (value : ℝ) (visits parentVisits : ℕ) (c : ℝ) : EReal :=
  if visits = 0 then (⊤ : EReal)
  else ((value / visits + c * Real.sqrt (Real.log parentVisits / visits) : ℝ) : EReal)

/-- Comparison of two scores for `list.index(max(...))` (scores are floats in
the source; real-number equality is classical). -/
noncomputable def scoreEqb (x y : EReal) : Bool :=
  @decide (x = y) (Classical.propDecidable _)

/-- Embedding of `MCTSAgent.best_child` (lines 71-74):
`choices[scores.index(max(scores))]`, i.e. the first child attaining the
maximal UCB1 score; `none` when the node is missing or has no children. -/
noncomputable def best_child_action (t : MTree) (p : List String) (c : ℝ) :
    Option String :=
  match treeGet t p with
  | none => none
  | some nd =>
    let pairs := nd.childActions.filterMap
      (fun a => (treeGet t (p ++ [a])).map (fun d => (a, d)))
    match pairs with
    | [] => none
    | _ :: _ =>
      let scores := pairs.map (fun ad => ucb1 ad.2.value ad.2.visits nd.visits c)
      let m := scores.foldr max ⊥
      (pairs.find? (fun ad =>
        scoreEqb (ucb1 ad.2.value ad.2.visits nd.visits c) m)).map
        (fun ad => ad.1)

/-- Embedding of the selection descent (`tree_policy` loop of `run`, lines
100-103): follow `best_child` from the root until a node with no children;
`fuel` bounds the descent (the caller passes the tree size, which the depth
of any path cannot exceed). -/
noncomputable def selectPath (c : ℝ) (t : MTree) : ℕ → List String → List String
  | 0, p => p
  | fuel + 1, p =>
    match treeGet t p with
    | none => p
    | some nd =>
      if nd.childActions.isEmpty then p
      else
        match best_child_action t p c with
        | some a => selectPath c t fuel (p ++ [a])
        | none => p

/-- One iteration of the `expand` loop of `MCTSAgent.expand` (lines 62-69):
if action `a` is not yet a child of the node at `p`, deep-clone the node's
state, re-shuffle the clone's deck (per-child determinization), and attach a
fresh child node with zero visits. -/
def expandStep (shuf : ℕ → List Card → List Card) (p : List String)
    (st : Heap × MTree × ℕ) (a : String) : Heap × MTree × ℕ :=
  match treeGet st.2.1 p with
  | none => st
  | some nd' =>
    if a ∈ nd'.childActions then st
    else
      let hc := cloneGS st.1 nd'.stateAddr
      let h' := shuffleAt (shuf st.2.2) hc.1 hc.2
      let t' := treeSet st.2.1 p
        { nd' with childActions := nd'.childActions ++ [a] }
      (h', t' ++ [(p ++ [a],
        { stateAddr := hc.2, childActions := [], visits := 0, value := 0 })],
        st.2.2 + 1)

/-- Embedding of `MCTSAgent.expand` (lines 62-69): run `expandStep` over the
legal actions of the node's state. -/
def expand (shuf : ℕ → List Card → List Card) (h : Heap) (t : MTree)
    (p : List String) (k : ℕ) : Heap × MTree × ℕ :=
  match treeGet t p with
  | none => (h, t, k)
  | some nd =>
    let actions := match readGS h nd.stateAddr with
      | some gs => gs.legal_actions
      | none => []
    actions.foldl (expandStep shuf p) (h, t, k)

/-- Embedding of the rollout loop of `MCTSAgent.default_policy` (lines
44-55): stop on game over, an empty deck, no legal action, or a round-ending
outcome; otherwise apply the action picked by the `choice` stream and
continue, tracking whether a flip7 occurred.  Returns the heap, the next
RNG-counter and the flip7 flag. -/
def dp_loop (choice : ℕ → ℕ) : ℕ → Heap → ℕ → ℕ → Bool → Heap × ℕ × Bool
  | 0, h, _, k, f7 => (h, k, f7)
  | fuel + 1, h, a, k, f7 =>
    match readGS h a with
    | none => (h, k, f7)
    | some gs =>
      if gs.game_over || gs.deck.isEmpty then (h, k, f7)
      else
        let actions := gs.legal_actions
        if actions.isEmpty then (h, k, f7)
        else
          let act := actions.getD (choice k % actions.length) "hit"
          let r := apply_action_heap h a act
          match r.2 with
          | none => (r.1, k + 1, f7)
          | some o =>
            let f7' := f7 || (o.result == "flip7")
            if o.round_end.getD false then (r.1, k + 1, f7')
            else dp_loop choice fuel r.1 a (k + 1) f7'

/-- Embedding of `MCTSAgent.default_policy` (lines 38-60): clone the state,
run the random rollout on the clone, and return the signed change of the
acting player's total plus the flip7 bonus weight `w` if a flip7 occurred. -/
noncomputable def default_policy (choice : ℕ → ℕ) (w : ℝ) (fuel : ℕ)
    (h : Heap) (a : ℕ) (k : ℕ) : Heap × ℕ × ℝ :=
  let hc := cloneGS h a
  let player := match readGS hc.1 hc.2 with
    | some gs => gs.current_player
    | none => 0
  let start := match readGS hc.1 hc.2 with
    | some gs => gs.player_totals.getD player 0
    | none => 0
  let r := dp_loop choice fuel hc.1 hc.2 k false
  let endv := match readGS r.1 hc.2 with
    | some gs => gs.player_totals.getD player 0
    | none => 0
  (r.1, r.2.1, ((endv - start : ℤ) : ℝ) + (if r.2.2 then w else 0))

/-- Embedding of `MCTSAgent.backup` (lines 76-81): walk from the node up the
parent chain to the root — on the path tree, every prefix of the path —
incrementing visits and accumulating the reward. -/
noncomputable def backup (t : MTree) (p : List String) (r : ℝ) : MTree :=
  t.map (fun e =>
    if e.1.isPrefixOf p then
      (e.1, { e.2 with visits := e.2.visits + 1, value := e.2.value + r })
    else e)

/-- Final action selection of `MCTSAgent.run` (lines 119-130): strictly
greater-than on scores where `none` stands for float `-inf` (an unvisited
child); note `-inf > -inf` is false, so an unvisited child never replaces
the current best. -/
noncomputable def optGt : Option ℝ → Option ℝ → Bool
  | none, _ => false
  | some _, none => true
  | some x, some y => @decide (y < x) (Real.decidableLT y x)

/-- The `best_act` loop of `MCTSAgent.run` (lines 119-130): iterate over the
root's children in insertion order, score `value / visits` (`-inf` at zero
visits, embedded as `none`), keep the strictly best; `none` when no child
ever beats the initial `-inf`. -/
noncomputable def finalSelect (t : MTree) : Option String :=
  match treeGet t [] with
  | none => none
  | some nd =>
    (nd.childActions.foldl (fun (acc : Option String × Option ℝ) a =>
      let score : Option ℝ := match treeGet t [a] with
        | some d => if d.visits = 0 then none else some (d.value / d.visits)
        | none => none
      if optGt score acc.2 then (some a, score) else acc) (none, none)).1

/-- Selection and expansion phase of one search iteration of `MCTSAgent.run`
(lines 98-109): descend by UCB1 to a leaf; if the leaf was visited before,
expand it and step into a uniformly random fresh child.  Returns the heap,
tree, RNG counter and the selected path. -/
noncomputable def selectExpandPhase (shuf : ℕ → List Card → List Card)
    (choice : ℕ → ℕ) (c : ℝ) (st : Heap × MTree × ℕ) :
    Heap × MTree × ℕ × List String :=
  let p := selectPath c st.2.1 (st.2.1.length + 1) []
  match treeGet st.2.1 p with
  | none => (st.1, st.2.1, st.2.2, p)
  | some nd =>
    if 0 < nd.visits then
      let e := expand shuf st.1 st.2.1 p st.2.2
      match treeGet e.2.1 p with
      | some nd' =>
        if nd'.childActions.isEmpty then (e.1, e.2.1, e.2.2, p)
        else
          let i := choice e.2.2 % nd'.childActions.length
          (e.1, e.2.1, e.2.2 + 1, p ++ [nd'.childActions.getD i "hit"])
      | none => (e.1, e.2.1, e.2.2, p)
    else (st.1, st.2.1, st.2.2, p)

/-- One iteration of the search loop of `MCTSAgent.run` (lines 98-117):
selection by UCB1 descent, expansion of a previously visited leaf followed by
a uniformly random step into a fresh child, rollout from a re-shuffled clone
of the selected node's state, and backpropagation along the path. -/
noncomputable def simStep (shuf : ℕ → List Card → List Card) (choice : ℕ → ℕ)
    (w c : ℝ) (rolloutFuel : ℕ) (st : Heap × MTree × ℕ) : Heap × MTree × ℕ :=
  let ex := selectExpandPhase shuf choice c st
  match treeGet ex.2.1 ex.2.2.2 with
  | none => (ex.1, ex.2.1, ex.2.2.1)
  | some nd =>
    let hc := cloneGS ex.1 nd.stateAddr
    let h3 := shuffleAt (shuf ex.2.2.1) hc.1 hc.2
    let dp := default_policy choice w rolloutFuel h3 hc.2 (ex.2.2.1 + 1)
    (dp.1, backup ex.2.1 ex.2.2.2 dp.2.2, dp.2.1)

/-- Embedding of `MCTSAgent.run` (lines 91-130): determinize (deep clone +
re-shuffle) the caller's state, build the root, eagerly expand it, run
`sims` search iterations, and pick the root action of highest mean value
(`none`, i.e. Python `None`, when every child is unvisited).  `shuf` and
`choice` are the explicit randomness streams and `rolloutFuel` bounds each
rollout. -/
noncomputable def run (shuf : ℕ → List Card → List Card) (choice : ℕ → ℕ)
    (w c : ℝ) (rolloutFuel : ℕ) (h : Heap) (a : ℕ) (sims : ℕ) :
    Heap × Option String :=
  let hc := cloneGS h a
  let h1 := shuffleAt (shuf 0) hc.1 hc.2
  let t0 : MTree := [([],
    { stateAddr := hc.2, childActions := [], visits := 0, value := 0 })]
  let e := expand shuf h1 t0 [] 1
  let fin := (List.range sims).foldl
    (fun st _ => simStep shuf choice w c rolloutFuel st) (e.1, e.2.1, e.2.2)
  (fin.1, finalSelect fin.2.1)

/-- Concrete tree for the `ucb1_selection` witness: the root has a visited
`"hit"` child and an unvisited `"stay"` child. -/
def ucbWitnessTree : MTree :=
  [([], { stateAddr := 0, childActions := ["hit", "stay"], visits := 3, value := 10 }),
   (["hit"], { stateAddr := 1, childActions := [], visits := 3, value := 10 }),
   (["stay"], { stateAddr := 2, childActions := [], visits := 0, value := 0 })]

/-- Concrete heap for the C2 counterexample: one well-formed two-player
`GameState` object at address 3 (totals at 0, collected numbers at 1, deck at
2) with a legal move available. -/
def mctsH0 : Heap :=
  ⟨[Cell.ints [0, 0], Cell.ints [], Cell.cards [Card.number 3],
    Cell.gsc
      { num_players := 2
        current_player := 0
        flat_modifiers := 0
        x2 := false
        second_chance_count := 0
        round_over := false
        winner := none
        totals_addr := 0
        numbers_addr := 1
        deck_addr := 2 }]⟩

/-- One cell is address-closed for bound `n`: a `GameState` object keeps all
its component addresses below `n`. -/
def CellWF (n : ℕ) : Cell → Prop
  | .gsc d => d.totals_addr < n ∧ d.numbers_addr < n ∧ d.deck_addr < n
  | .ints _ => True
  | .cards _ => True

instance (n : ℕ) (c : Cell) : Decidable (CellWF n c) :=
  match c with
  | .gsc _ => inferInstanceAs (Decidable (_ ∧ _ ∧ _))
  | .ints _ => inferInstanceAs (Decidable True)
  | .cards _ => inferInstanceAs (Decidable True)

/-- Well-formed heap: every object cell's component addresses are in range. -/
def HeapWF (h : Heap) : Prop :=
  ∀ c ∈ h.store, CellWF h.store.length c

instance (h : Heap) : Decidable (HeapWF h) :=
  inferInstanceAs (Decidable (∀ c ∈ h.store, CellWF h.store.length c))

/-- The heap `h'` extends `h` without touching any cell below address `n`:
everything the caller can reach through addresses `< n` is intact. -/
def ExtBelow (n : ℕ) (h h' : Heap) : Prop :=
  n ≤ h'.store.length ∧ ∀ i : ℕ, i < n → h'.lookup i = h.lookup i

/-- Every object cell living at an address `≥ n` keeps its component
addresses `≥ n`: objects created during the search never point into the
caller's storage. -/
def SafeHeap (n : ℕ) (h : Heap) : Prop :=
  ∀ a d, n ≤ a → h.lookup a = some (.gsc d) →
    n ≤ d.totals_addr ∧ n ≤ d.numbers_addr ∧ n ≤ d.deck_addr

/-- The banking tail adds exactly `score` to the active player's total and
leaves the other entries of the totals list unchanged. -/
theorem bank_with_totals (gs : GameState) (score : ℤ)
    (h : gs.current_player < gs.player_totals.length) :
    (gs.bank_with score).player_totals.getD gs.current_player 0 =
      gs.player_totals.getD gs.current_player 0 + score := by
  simp only [GameState.bank_with]
  split <;> simp [List.getElem?_set_self', h, List.getD]

/-- Totals banked by `_bank_current`: the scoring formula when the collected
line is nonempty, `0` when it is empty. -/
theorem bank_current_totals (gs : GameState)
    (h : gs.current_player < gs.player_totals.length) :
    gs.bank_current.player_totals.getD gs.current_player 0 =
      gs.player_totals.getD gs.current_player 0 +
        (if gs.current_numbers = [] then 0 else gs.sum_current_score) := by
  unfold GameState.bank_current
  rw [bank_with_totals _ _ h]
  simp [List.isEmpty_iff]

/-- C1 counterexample: banking via `stay` on an empty line with flat modifier
`5` adds `0` to the player's total, not the claimed formula value `5` — the
scoring formula is *not* applied when the collected-numbers set is empty. -/
theorem bank_event_amounts_counterexample :
    (emptyLineModifierState.apply_action "stay").toOption.map
        (fun p => p.1.player_totals.getD 0 0) = some 0 ∧
    emptyLineModifierState.player_totals.getD 0 0 +
        emptyLineModifierState.sum_current_score = 5 ∧
    (emptyLineModifierState.apply_action "stay").toOption.map
        (fun p => p.1.player_totals.getD 0 0) ≠
      some (emptyLineModifierState.player_totals.getD 0 0 +
        emptyLineModifierState.sum_current_score) := by
  decide

/-- C1 (amended): at every bank event — bust-free `stay`, `freeze`, and
`flip7` — the amount added to the active player's total is
`sum(collectedNumbers)`, doubled if the multiplier flag is set, plus the flat
modifier, plus 15 when at least 7 distinct numbers are collected, *provided
the collected line is nonempty*; an empty line banks `0` even when the flat
modifier is positive (`_bank_current` computes the formula only under
`if self.current_numbers:`).  The last two conjuncts check the formula shape
and the spec's 12/19 examples. -/
theorem bank_event_amounts (gs : GameState)
    (hcp : gs.current_player < gs.player_totals.length) :
    (("stay" ∈ gs.legal_actions) →
      (gs.apply_action "stay").toOption.map
          (fun p => p.1.player_totals.getD gs.current_player 0) =
        some (gs.player_totals.getD gs.current_player 0 +
          (if gs.current_numbers = [] then 0 else gs.sum_current_score))) ∧
    (∀ fuel,
      (process_draw fuel gs (Card.action "Freeze")).1.player_totals.getD
          gs.current_player 0 =
        gs.player_totals.getD gs.current_player 0 +
          (if gs.current_numbers = [] then 0 else gs.sum_current_score)) ∧
    (∀ fuel v, v ∉ gs.current_numbers →
      7 ≤ (gs.current_numbers ++ [v]).dedup.length →
      (process_draw fuel gs (Card.number v)).1.player_totals.getD
          gs.current_player 0 =
        gs.player_totals.getD gs.current_player 0 +
          ({ gs with current_numbers := gs.current_numbers ++ [v] } :
            GameState).sum_current_score) ∧
    (∀ gs2 : GameState, gs2.sum_current_score =
      (if gs2.x2 then 2 * gs2.current_numbers.sum else gs2.current_numbers.sum) +
        gs2.flat_modifiers +
        (if 7 ≤ gs2.current_numbers.dedup.length then 15 else 0)) ∧
    (∀ gs2 : GameState, gs2.current_numbers = [3, 4] → gs2.flat_modifiers = 5 →
      ((gs2.x2 = false → gs2.sum_current_score = 12) ∧
       (gs2.x2 = true → gs2.sum_current_score = 19))) := by
  refine ⟨?_, ?_, ?_, ?_, ?_⟩
  · intro hmem
    have hstay : gs.apply_action "stay" =
        .ok
          (let gs1 := ({ gs with round_over := false } : GameState).bank_current
           { gs1 with
             current_player := (gs1.current_player + 1) % gs1.num_players
             round_over := false },
          { result := "stayed", banked := some (.flag true) }) := by
      simp [GameState.apply_action, if_pos hmem]
    rw [hstay]
    have h2 := bank_current_totals { gs with round_over := false } (by simpa using hcp)
    simp only [Except.toOption, Option.map]
    simpa using h2
  · intro fuel
    have h2 := bank_current_totals gs hcp
    simpa [process_draw.eq_def] using h2
  · intro fuel v hv h7
    have h2 := bank_with_totals
      ({ gs with current_numbers := gs.current_numbers ++ [v] } : GameState)
      (({ gs with current_numbers := gs.current_numbers ++ [v] } :
        GameState).sum_current_score) (by simpa using hcp)
    simpa [process_draw.eq_def, hv, h7] using h2
  · intro gs2
    simp only [GameState.sum_current_score]
    split <;> split <;> ring
  · intro gs2 h1 h2
    constructor <;> intro hx <;> simp only [GameState.sum_current_score, h1, h2, hx] <;> decide

/-- Witness for `bank_event_amounts` at the concrete state `scoreState34`:
staying banks `3 + 4 + 5 = 12`. -/
theorem bank_event_amounts_witness :
    (scoreState34.apply_action "stay").toOption.map
        (fun p => p.1.player_totals.getD 0 0) =
      some (scoreState34.player_totals.getD 0 0 +
        (if scoreState34.current_numbers = [] then 0
         else scoreState34.sum_current_score)) :=
  (bank_event_amounts scoreState34 (by decide)).1 (by decide)

/-- C5 counterexample: the deck does not contain 78 number cards — counting
the number cards of the construction (`0×1, 1×1, n×n` for `n = 2..12`) gives
`1 + 1 + (2 + 3 + ... + 12) = 79`, not 78. -/
theorem deck_initial_distribution_counterexample :
    initial_cards.countP
        (fun c => match c with | Card.number _ => true | _ => false) = 79 ∧
    (79 : ℕ) ≠ 78 := by
  decide

/-- C5 (amended): the freshly built deck has exactly 94 cards in the
documented per-card distribution: 79 number cards (`0×1, 1×1, n×n` for
`n = 2..12`), 9 modifier cards `+2..+10`, two `Freeze`, two `FlipThree`, one
`SecondChance`, one `x2` multiplier.  (The card-list construction in
`Flip7Deck.__init__` is independent of the seed, which only seeds the
RNG.) -/
theorem deck_initial_distribution :
    initial_cards.length = 94 ∧
    initial_cards.count (Card.number 0) = 1 ∧
    initial_cards.count (Card.number 1) = 1 ∧
    (∀ n ∈ Finset.Icc (2 : ℤ) 12, initial_cards.count (Card.number n) = n.toNat) ∧
    (∀ m ∈ Finset.Icc (2 : ℤ) 10, initial_cards.count (Card.modifier m) = 1) ∧
    initial_cards.count (Card.action "Freeze") = 2 ∧
    initial_cards.count (Card.action "FlipThree") = 2 ∧
    initial_cards.count (Card.action "SecondChance") = 1 ∧
    initial_cards.count Card.mult = 1 ∧
    initial_cards.countP
      (fun c => match c with | Card.number _ => true | _ => false) = 79 := by
  decide

/-- Witness for `deck_initial_distribution`: twelve copies of `Number(12)`. -/
theorem deck_initial_distribution_witness :
    initial_cards.count (Card.number 12) = 12 :=
  deck_initial_distribution.2.2.2.1 12 (by decide)

/-- C6: when `hit` is legal and the drawn card is a number already collected
while no second-chance token is held, the outcome is a bust: totals of every
player are unchanged (the totals list is carried over verbatim), the round
state resets to empty/zero, the outcome is `"bust"` with the round-end flag,
and the turn advances. -/
theorem duplicate_bust (gs : GameState) (v : ℤ) (rest : List Card)
    (hleg : "hit" ∈ gs.legal_actions)
    (hdeck : gs.deck = Card.number v :: rest)
    (hdup : v ∈ gs.current_numbers)
    (hsc : gs.second_chance_count = 0) :
    gs.apply_action "hit" = .ok
      ({ gs with
          deck := rest
          current_numbers := []
          flat_modifiers := 0
          x2 := false
          second_chance_count := 0
          current_player := (gs.current_player + 1) % gs.num_players
          round_over := false },
        { result := "bust", card := some (Card.number v),
          round_end := some true }) := by
  simp [GameState.apply_action, if_pos hleg, hdeck, process_draw.eq_def, hdup, hsc]

/-- Witness for `duplicate_bust` at `bustWitnessState`. -/
theorem duplicate_bust_witness :
    bustWitnessState.apply_action "hit" = .ok
      ({ bustWitnessState with
          deck := [Card.mult]
          current_numbers := []
          flat_modifiers := 0
          x2 := false
          second_chance_count := 0
          current_player := 1
          round_over := false },
        { result := "bust", card := some (Card.number 3),
          round_end := some true }) :=
  duplicate_bust bustWitnessState 3 [Card.mult] (by decide) rfl (by decide) rfl

/-- C4: processing a drawn `FlipThree` card performs at most 3 forced draws;
it stops immediately when the deck is empty, and if the second forced draw
ends the round (e.g. busts) the third is never attempted: the forced-draw
list is exactly `[c1, c2]` and the state is the one left by the second
forced draw. -/
theorem flipthree_bounded :
    (∀ fuel gs,
      (process_draw fuel gs (Card.action "FlipThree")).2.draws.length ≤ 3) ∧
    (∀ fuel gs, gs.deck = [] →
      process_draw fuel gs (Card.action "FlipThree") =
        (gs, { result := "flipthree_done",
               card := some (Card.action "FlipThree"), draws := [] })) ∧
    (∀ fuel gs c1 r1 c2 r2, gs.deck = c1 :: r1 →
      (process_draw fuel { gs with deck := r1 } c1).2.round_end.getD false = false →
      (process_draw fuel { gs with deck := r1 } c1).1.deck = c2 :: r2 →
      (process_draw fuel
        { (process_draw fuel { gs with deck := r1 } c1).1 with
          deck := r2 } c2).2.round_end.getD false = true →
      process_draw (fuel + 1) gs (Card.action "FlipThree") =
        ((process_draw fuel
            { (process_draw fuel { gs with deck := r1 } c1).1 with
              deck := r2 } c2).1,
          { result := "flipthree_resolved",
            card := some (Card.action "FlipThree"),
            draws := [c1, c2], round_end := some true })) := by
  refine ⟨?_, ?_, ?_⟩
  · intro fuel gs
    rcases fuel with _ | fuel
    · simp [process_draw.eq_def]
    · rw [process_draw.eq_def]
      rcases hdeck : gs.deck with _ | ⟨c1, r1⟩ <;> simp only [hdeck] <;>
        (repeat' split) <;> simp
  · intro fuel gs hdeck
    rcases fuel with _ | fuel <;>
      · rw [process_draw.eq_def]
        simp [hdeck]
  · intro fuel gs c1 r1 c2 r2 hdeck h1 h2 h3
    rw [process_draw.eq_def]
    simp only [hdeck, h1, h2, h3]
    simp

/-- Witness for `flipthree_bounded`: with forced draws `1` then a busting
duplicate `1`, only two forced draws happen and the `2` stays on the deck. -/
theorem flipthree_bounded_witness :
    process_draw 1 ftWitnessState (Card.action "FlipThree") =
      ((process_draw 0
          { (process_draw 0
              { ftWitnessState with deck := [Card.number 1, Card.number 2] }
              (Card.number 1)).1 with
            deck := [Card.number 2] } (Card.number 1)).1,
        { result := "flipthree_resolved",
          card := some (Card.action "FlipThree"),
          draws := [Card.number 1, Card.number 1], round_end := some true }) :=
  flipthree_bounded.2.2 0 ftWitnessState (Card.number 1)
    [Card.number 1, Card.number 2] (Card.number 1) [Card.number 2]
    rfl (by decide) (by decide) (by decide)

/-- C10: constructing a game twice from the same player count and seed gives
the identical initial deck ordering (and, in fact, identical states): the
seeded source is a pure function of the seed, so the seeded shuffle is
deterministic and replayable. -/
theorem seeded_init_deterministic (num_players seed : ℕ) (s1 s2 : GameState)
    (h1 : s1 = GameState.init num_players seed)
    (h2 : s2 = GameState.init num_players seed) :
    s1.deck = s2.deck ∧ s1 = s2 := by
  subst h1; subst h2; exact ⟨rfl, rfl⟩

/-- Witness for `seeded_init_deterministic` at the spec's example
`GameState(numPlayers=2, seed=42)`. -/
theorem seeded_init_deterministic_witness :
    (GameState.init 2 42).deck = (GameState.init 2 42).deck ∧
      GameState.init 2 42 = GameState.init 2 42 :=
  seeded_init_deterministic 2 42 _ _ rfl rfl

/-- Entry `j` of `l.set i x` is unchanged for `j ≠ i`. -/
theorem getD_set_ne (l : List ℤ) (i j : ℕ) (x : ℤ) (h : i ≠ j) :
    (l.set i x)[j]?.getD 0 = l[j]?.getD 0 := by
  simp [List.getElem?_set_ne h]

/-- The banking tail preserves the winner/total relationship: starting from a
winnerless state whose totals are all below 200, every set winner has total
at least 200, and if no winner is set every total is still below 200. -/
theorem bank_with_inv (gs : GameState) (score : ℤ)
    (hw : gs.winner = none)
    (hlt : ∀ i : ℕ, gs.player_totals[i]?.getD 0 < 200) :
    (∀ p : ℕ, (gs.bank_with score).winner = some p →
        200 ≤ (gs.bank_with score).player_totals[p]?.getD 0) ∧
    ((gs.bank_with score).winner = none →
        ∀ i : ℕ, (gs.bank_with score).player_totals[i]?.getD 0 < 200) := by
  simp only [GameState.bank_with]
  split
  case isTrue h200 =>
    refine ⟨?_, ?_⟩
    · intro p hp
      simp only [Option.some.injEq] at hp
      subst hp
      simpa [List.getD] using h200
    · intro hnone
      simp at hnone
  case isFalse h200 =>
    refine ⟨?_, ?_⟩
    · intro p hp
      simp only [hw] at hp
      exact absurd hp (by simp)
    · intro _ i
      by_cases hic : gs.current_player = i
      · subst hic
        simpa [List.getD] using lt_of_not_ge h200
      · simpa [getD_set_ne _ _ _ _ hic] using hlt i

/-- `PDInv` for number-card dispatch. -/
theorem pdw_number (fuel : ℕ) (gs : GameState) (v : ℤ)
    (hw : gs.winner = none)
    (hlt : ∀ i : ℕ, gs.player_totals[i]?.getD 0 < 200) :
    PDInv gs (process_draw fuel gs (Card.number v)) := by
  rw [process_draw.eq_def]
  by_cases hv : v ∈ gs.current_numbers
  · by_cases hscc : 0 < gs.second_chance_count
    · simp [PDInv, hv, hscc, hw, hlt]
    · simp [PDInv, hv, hscc, hw, hlt]
  · by_cases h7 : 7 ≤ (gs.current_numbers ++ [v]).dedup.length
    · have hb := bank_with_inv
        ({ gs with current_numbers := gs.current_numbers ++ [v] } : GameState)
        (({ gs with current_numbers := gs.current_numbers ++ [v] } :
          GameState).sum_current_score) hw hlt
      simp only [PDInv, if_neg hv, h7]
      simp [hb.1, hb.2]
      exact ⟨hb.1, hb.2⟩
    · simp [PDInv, hv, h7, hw, hlt]

/-- `PDInv` for modifier-card dispatch. -/
theorem pdw_modifier (fuel : ℕ) (gs : GameState) (m : ℤ)
    (hw : gs.winner = none)
    (hlt : ∀ i : ℕ, gs.player_totals[i]?.getD 0 < 200) :
    PDInv gs (process_draw fuel gs (Card.modifier m)) := by
  rw [process_draw.eq_def]
  simp [PDInv, hw, hlt]

/-- `PDInv` for multiplier-card dispatch. -/
theorem pdw_mult (fuel : ℕ) (gs : GameState)
    (hw : gs.winner = none)
    (hlt : ∀ i : ℕ, gs.player_totals[i]?.getD 0 < 200) :
    PDInv gs (process_draw fuel gs Card.mult) := by
  rw [process_draw.eq_def]
  simp [PDInv, hw, hlt]

/-- `PDInv` for `Freeze` dispatch (a forced bank). -/
theorem pdw_freeze (fuel : ℕ) (gs : GameState)
    (hw : gs.winner = none)
    (hlt : ∀ i : ℕ, gs.player_totals[i]?.getD 0 < 200) :
    PDInv gs (process_draw fuel gs (Card.action "Freeze")) := by
  rw [process_draw.eq_def]
  have hb := bank_with_inv gs
    (if gs.current_numbers.isEmpty then 0 else gs.sum_current_score) hw hlt
  simp only [List.isEmpty_iff] at hb
  simp [PDInv, GameState.bank_current]
  exact ⟨hb.1, hb.2⟩

/-- `PDInv` for `SecondChance` and unrecognised action names. -/
theorem pdw_other_action (fuel : ℕ) (gs : GameState) (name : String)
    (hname : name ≠ "Freeze") (hname2 : name ≠ "FlipThree")
    (hw : gs.winner = none)
    (hlt : ∀ i : ℕ, gs.player_totals[i]?.getD 0 < 200) :
    PDInv gs (process_draw fuel gs (Card.action name)) := by
  rw [process_draw.eq_def]
  by_cases hsc : name = "SecondChance" <;>
    simp [PDInv, hname, hname2, hsc, hw, hlt]

/-- Unfolding of the `FlipThree` branch of `_process_draw` at positive fuel:
the three forced-draw iterations on the current deck. -/
theorem process_draw_ft_succ (fuel : ℕ) (gs : GameState) :
    process_draw (fuel + 1) gs (Card.action "FlipThree") =
      (match gs.deck with
      | [] => (gs, { result := "flipthree_done",
                     card := some (Card.action "FlipThree"), draws := [] })
      | c1 :: r1 =>
        let p1 := process_draw fuel { gs with deck := r1 } c1
        if p1.2.round_end.getD false then
          (p1.1, { result := "flipthree_resolved",
                   card := some (Card.action "FlipThree"),
                   draws := [c1], round_end := some true })
        else
          match p1.1.deck with
          | [] => (p1.1, { result := "flipthree_done",
                           card := some (Card.action "FlipThree"), draws := [c1] })
          | c2 :: r2 =>
            let p2 := process_draw fuel { p1.1 with deck := r2 } c2
            if p2.2.round_end.getD false then
              (p2.1, { result := "flipthree_resolved",
                       card := some (Card.action "FlipThree"),
                       draws := [c1, c2], round_end := some true })
            else
              match p2.1.deck with
              | [] => (p2.1, { result := "flipthree_done",
                               card := some (Card.action "FlipThree"),
                               draws := [c1, c2] })
              | c3 :: r3 =>
                let p3 := process_draw fuel { p2.1 with deck := r3 } c3
                if p3.2.round_end.getD false then
                  (p3.1, { result := "flipthree_resolved",
                           card := some (Card.action "FlipThree"),
                           draws := [c1, c2, c3], round_end := some true })
                else
                  (p3.1, { result := "flipthree_done",
                           card := some (Card.action "FlipThree"),
                           draws := [c1, c2, c3] })) := by
  rw [process_draw.eq_def]
  rfl

/-- `PDInv` holds for every card dispatch: by induction on the `FlipThree`
nesting fuel, any single draw processed from a winnerless state with all
totals below 200 preserves the winner/total relationship. -/
theorem process_draw_winner_inv (fuel : ℕ) (gs : GameState) (card : Card)
    (hw : gs.winner = none)
    (hlt : ∀ i : ℕ, gs.player_totals[i]?.getD 0 < 200) :
    PDInv gs (process_draw fuel gs card) := by
  induction fuel generalizing gs card with
  | zero =>
    rcases card with v | m | _ | name
    · exact pdw_number 0 gs v hw hlt
    · exact pdw_modifier 0 gs m hw hlt
    · exact pdw_mult 0 gs hw hlt
    · by_cases hf : name = "Freeze"
      · subst hf; exact pdw_freeze 0 gs hw hlt
      · by_cases hft : name = "FlipThree"
        · subst hft
          rw [process_draw.eq_def]
          simp [PDInv, hw, hlt]
        · exact pdw_other_action 0 gs name hf hft hw hlt
  | succ fuel ih =>
    rcases card with v | m | _ | name
    · exact pdw_number _ gs v hw hlt
    · exact pdw_modifier _ gs m hw hlt
    · exact pdw_mult _ gs hw hlt
    · by_cases hf : name = "Freeze"
      · subst hf; exact pdw_freeze _ gs hw hlt
      · by_cases hft : name = "FlipThree"
        case neg => exact pdw_other_action _ gs name hf hft hw hlt
        subst hft
        rw [process_draw_ft_succ]
        rcases hdeck : gs.deck with _ | ⟨c1, r1⟩
        · simp [PDInv, hw, hlt]
        · simp only []
          generalize hP1 : process_draw fuel { gs with deck := r1 } c1 = P1
          have H1 : PDInv { gs with deck := r1 } P1 := by
            rw [← hP1]
            exact ih _ c1 (by simpa using hw) (fun i => by simpa using hlt i)
          by_cases hre1 : P1.2.round_end.getD false = true
          · rw [if_pos hre1]
            exact ⟨by intro h; simp at h, H1.2.1, H1.2.2⟩
          · have hre1f : P1.2.round_end.getD false = false := by simpa using hre1
            rw [if_neg hre1]
            obtain ⟨ht1, hw1⟩ := H1.1 hre1f
            have ht1g : P1.1.player_totals = gs.player_totals := ht1
            rcases hd2 : P1.1.deck with _ | ⟨c2, r2⟩
            · simp only [hd2]
              exact ⟨fun _ => ⟨ht1g, hw1⟩, H1.2.1, H1.2.2⟩
            · simp only [hd2]
              generalize hP2 : process_draw fuel { P1.1 with deck := r2 } c2 = P2
              have H2 : PDInv { P1.1 with deck := r2 } P2 := by
                rw [← hP2]
                exact ih _ c2 (by simpa using hw1)
                  (fun i => by simp only []; rw [show ({ P1.1 with deck := r2 } :
                    GameState).player_totals = gs.player_totals from ht1g]; exact hlt i)
              by_cases hre2 : P2.2.round_end.getD false = true
              · rw [if_pos hre2]
                exact ⟨by intro h; simp at h, H2.2.1, H2.2.2⟩
              · have hre2f : P2.2.round_end.getD false = false := by simpa using hre2
                rw [if_neg hre2]
                obtain ⟨ht2, hw2⟩ := H2.1 hre2f
                have ht2g : P2.1.player_totals = gs.player_totals := ht2.trans ht1g
                rcases hd3 : P2.1.deck with _ | ⟨c3, r3⟩
                · simp only [hd3]
                  exact ⟨fun _ => ⟨ht2g, hw2⟩, H2.2.1, H2.2.2⟩
                · simp only [hd3]
                  generalize hP3 : process_draw fuel { P2.1 with deck := r3 } c3 = P3
                  have H3 : PDInv { P2.1 with deck := r3 } P3 := by
                    rw [← hP3]
                    exact ih _ c3 (by simpa using hw2)
                      (fun i => by simp only []; rw [show ({ P2.1 with deck := r3 } :
                        GameState).player_totals = gs.player_totals from ht2g]; exact hlt i)
                  by_cases hre3 : P3.2.round_end.getD false = true
                  · rw [if_pos hre3]
                    exact ⟨by intro h; simp at h, H3.2.1, H3.2.2⟩
                  · have hre3f : P3.2.round_end.getD false = false := by simpa using hre3
                    rw [if_neg hre3]
                    obtain ⟨ht3, hw3⟩ := H3.1 hre3f
                    exact ⟨fun _ => ⟨ht3.trans ht2g, hw3⟩, H3.2.1, H3.2.2⟩

/-- Any successful `apply_action` step preserves the winner/total invariant:
a set winner has total at least 200, and a winnerless state has all totals
below 200. -/
theorem apply_action_winner_inv (gs : GameState) (action : String)
    (gs' : GameState) (o : Outcome)
    (hstep : gs.apply_action action = .ok (gs', o))
    (h2 : gs.winner = none → ∀ i : ℕ, gs.player_totals[i]?.getD 0 < 200) :
    (∀ p : ℕ, gs'.winner = some p → 200 ≤ gs'.player_totals[p]?.getD 0) ∧
    (gs'.winner = none → ∀ i : ℕ, gs'.player_totals[i]?.getD 0 < 200) := by
  by_cases hmem : action ∈ gs.legal_actions
  case neg =>
    unfold GameState.apply_action at hstep
    rw [if_neg hmem] at hstep
    simp at hstep
  have hw : gs.winner = none := by
    rcases hwo : gs.winner with _ | w
    · rfl
    · rw [GameState.legal_actions] at hmem
      simp [hwo] at hmem
  have hlt := h2 hw
  simp only [GameState.apply_action, if_pos hmem] at hstep
  by_cases hst : action = "stay"
  · subst hst
    simp only [if_true] at hstep
    have hb := bank_with_inv ({ gs with round_over := false } : GameState)
      (if ({ gs with round_over := false } : GameState).current_numbers.isEmpty
        then 0
        else ({ gs with round_over := false } : GameState).sum_current_score)
      (by simpa using hw) (fun i => by simpa using hlt i)
    simp only [Except.ok.injEq, Prod.mk.injEq] at hstep
    obtain ⟨hgs', _⟩ := hstep
    subst hgs'
    constructor
    · intro p hp
      exact hb.1 p hp
    · intro hn i
      exact hb.2 hn i
  · simp only [if_neg hst] at hstep
    rcases hdk : gs.deck with _ | ⟨card, rest⟩ <;>
      simp only [hdk] at hstep
    · simp at hstep
    · have HP := process_draw_winner_inv rest.length
        ({ { gs with round_over := false } with deck := rest } : GameState) card
        (by simpa using hw) (fun i => by simpa using hlt i)
      split at hstep <;>
        simp only [Except.ok.injEq, Prod.mk.injEq] at hstep <;>
        obtain ⟨hgs', _⟩ := hstep <;>
        subst hgs'
      · exact ⟨fun p hp => HP.2.1 p hp, fun hn i => HP.2.2 hn i⟩
      · exact ⟨fun p hp => HP.2.1 p hp, fun hn i => HP.2.2 hn i⟩

/-- Every reachable state satisfies the winner/total invariant. -/
theorem reachable_winner_inv (gs : GameState) (h : ReachableState gs) :
    (∀ p : ℕ, gs.winner = some p → 200 ≤ gs.player_totals[p]?.getD 0) ∧
    (gs.winner = none → ∀ i : ℕ, gs.player_totals[i]?.getD 0 < 200) := by
  obtain ⟨gs0, ⟨n, cards, rfl⟩, hsteps⟩ := h
  induction hsteps with
  | refl =>
    constructor
    · intro p hp
      simp at hp
    · intro _ i
      rcases lt_or_ge i n with hin | hin
      · simp [List.getElem?_replicate, hin]
      · simp [List.getElem?_replicate, Nat.not_lt.mpr hin]
  | tail hsteps hstep ih =>
    obtain ⟨action, o, hap⟩ := hstep
    exact apply_action_winner_inv _ action _ o hap ih.2

/-- C3: in every reachable state the winner is set exactly when some player's
total has reached 200 (totals only move at bank events, and each bank checks
the threshold), and a state with a winner is terminal: `legal_actions`
returns the empty list and `apply_action` rejects every action with the
illegal-action error. -/
theorem winner_invariant_terminal (gs : GameState) (hreach : ReachableState gs) :
    (∀ p : ℕ, gs.winner = some p → 200 ≤ gs.player_totals.getD p 0) ∧
    ((∃ i : ℕ, 200 ≤ gs.player_totals.getD i 0) → gs.winner ≠ none) ∧
    (gs.winner ≠ none →
      gs.legal_actions = [] ∧
      ∀ action, gs.apply_action action = .error (.illegalAction action)) := by
  have h := reachable_winner_inv gs hreach
  refine ⟨?_, ?_, ?_⟩
  · intro p hp
    simpa [List.getD] using h.1 p hp
  · rintro ⟨i, hi⟩ hnone
    exact absurd hi (not_le.mpr (by simpa [List.getD] using h.2 hnone i))
  · intro hn
    have hsome : gs.winner.isSome := Option.ne_none_iff_isSome.mp hn
    have hla : gs.legal_actions = [] := by
      simp [GameState.legal_actions, hsome]
    refine ⟨hla, fun action => ?_⟩
    unfold GameState.apply_action
    rw [if_neg (by simp [hla])]

/-- Witness for `winner_invariant_terminal`: a two-step game (hit a 200
number card, then stay) reaches a state with the winner set; there the legal
action list is empty and the winner's total is at least 200. -/
theorem winner_invariant_terminal_witness :
    winWitnessState.legal_actions = [] ∧
      200 ≤ winWitnessState.player_totals.getD 0 0 := by
  have s1 : EngineStep winWitnessStart winWitnessMid :=
    ⟨"hit", { result := "number_added", card := some (Card.number 200) }, by rfl⟩
  have s2 : EngineStep winWitnessMid winWitnessState :=
    ⟨"stay", { result := "stayed", banked := some (.flag true) }, by rfl⟩
  have hreach : ReachableState winWitnessState :=
    ⟨winWitnessStart, ⟨1, [Card.number 200], rfl⟩,
      (Relation.ReflTransGen.refl.tail s1).tail s2⟩
  have h := winner_invariant_terminal winWitnessState hreach
  exact ⟨(h.2.2 (by decide)).1, h.1 0 rfl⟩

/-!
Embedding of `mcts_agent.py`.  Python objects live on a mutable heap and the
agent mutates clones of the caller's `GameState`; to state frame properties
(claim: `run` must not mutate the caller-supplied state) the mutable storage
is embedded explicitly.  A heap is a list of cells addressed by index: a
`GameState` object is a `gsc` cell holding its scalar attributes together
with the addresses of its three mutable list components (`player_totals`,
`current_numbers`, `deck.cards`; the `Flip7Deck` wrapper object is collapsed
onto its card list).  `copy.deepcopy` allocates fresh cells; in-place
mutation (`random.shuffle(st.deck.cards)`, attribute updates by
`apply_action`) writes through the addresses stored in the object's cell.
The global `random` source is threaded as explicit streams: `shuf k` is the
permutation applied by the `k`-th `random.shuffle` call, `choice k` drives
the `k`-th `random.choice`, with `k` a call counter.  The unbounded python
rollout loop of `default_policy` carries an explicit fuel (the loop ends with
probability 1 but not surely, e.g. under an all-`stay` choice stream).
Scores and rewards (python floats) are embedded as real numbers, with `±inf`
sentinels embedded as `⊤ : EReal` (UCB1) and `Option ℝ` with `none = -inf`
(final action selection).
-/

/-- `scoreEqb` decides score equality. -/
theorem scoreEqb_eq_true_iff (x y : EReal) : scoreEqb x y = true ↔ x = y := by
  unfold scoreEqb
  exact @decide_eq_true_iff _ (Classical.propDecidable _)

/-- A UCB1 score is infinite exactly for an unvisited node: a visited node's
score is a (finite) real. -/
theorem ucb1_eq_top_iff (value : ℝ) (visits parentVisits : ℕ) (c : ℝ) :
    ucb1 value visits parentVisits c = (⊤ : EReal) ↔ visits = 0 := by
  unfold ucb1
  split
  case isTrue h => simpa using h
  case isFalse h =>
    constructor
    · intro htop
      exact absurd htop (EReal.coe_ne_top _)
    · intro h0
      exact absurd h0 h

/-- Every member of a list is at most its `foldr max ⊥`. -/
theorem member_le_foldr_max (l : List EReal) (x : EReal) (hx : x ∈ l) :
    x ≤ l.foldr max ⊥ := by
  induction l with
  | nil => cases hx
  | cons y ys ih =>
    rcases List.mem_cons.mp hx with rfl | hx'
    · exact le_max_left _ _
    · exact le_trans (ih hx') (le_max_right _ _)

/-- C8: an unvisited child has UCB1 score `+∞` (first conjunct); a visited
child's score is the mean value plus `C * sqrt(ln(parentVisits) / visits)`
(second conjunct); and whenever some child of a node is unvisited,
`best_child` (first index of the maximal score, as in
`choices[scores.index(max(scores))]`) selects an unvisited child — a visited
sibling is never reconsidered while an unvisited one remains (third
conjunct). -/
theorem ucb1_selection (t : MTree) (p : List String) (c : ℝ) (nd : NodeData)
    (hnd : treeGet t p = some nd)
    (hunv : ∃ a ∈ nd.childActions,
      (treeGet t (p ++ [a])).map (fun d => d.visits) = some 0) :
    (∀ parentVisits : ℕ, ∀ v : ℝ, ucb1 v 0 parentVisits c = (⊤ : EReal)) ∧
    (∀ (v : ℝ) (visits parentVisits : ℕ), visits ≠ 0 →
      ucb1 v visits parentVisits c =
        ((v / visits + c * Real.sqrt (Real.log parentVisits / visits) : ℝ) :
          EReal)) ∧
    ((best_child_action t p c).bind
        (fun a => (treeGet t (p ++ [a])).map (fun d => d.visits)) = some 0) := by
  refine ⟨fun _ v => by simp [ucb1], fun v visits pv hv => by simp [ucb1, hv], ?_⟩
  obtain ⟨a0, ha0, hv0⟩ := hunv
  obtain ⟨d0, hd0, hdv0⟩ : ∃ d0, treeGet t (p ++ [a0]) = some d0 ∧ d0.visits = 0 := by
    rcases htg : treeGet t (p ++ [a0]) with _ | d
    · rw [htg] at hv0; simp at hv0
    · rw [htg] at hv0
      simp only [Option.map_some', Option.some.injEq] at hv0
      exact ⟨d, rfl, hv0⟩
  unfold best_child_action
  rw [hnd]
  have hmem : (a0, d0) ∈ nd.childActions.filterMap
      (fun a => (treeGet t (p ++ [a])).map (fun d => (a, d))) := by
    apply List.mem_filterMap.mpr
    exact ⟨a0, ha0, by rw [hd0]; rfl⟩
  rcases hpairs : nd.childActions.filterMap
      (fun a => (treeGet t (p ++ [a])).map (fun d => (a, d))) with _ | ⟨q, qs⟩
  · rw [hpairs] at hmem; cases hmem
  · rw [hpairs] at hmem
    simp only [hpairs]
    have hmtop : ((q :: qs).map
        (fun ad => ucb1 ad.2.value ad.2.visits nd.visits c)).foldr max ⊥ =
        (⊤ : EReal) := by
      apply top_le_iff.mp
      have hin : ucb1 d0.value d0.visits nd.visits c ∈
          (q :: qs).map (fun ad => ucb1 ad.2.value ad.2.visits nd.visits c) :=
        List.mem_map.mpr ⟨(a0, d0), hmem, rfl⟩
      calc (⊤ : EReal) = ucb1 d0.value d0.visits nd.visits c :=
            ((ucb1_eq_top_iff _ _ _ _).mpr hdv0).symm
        _ ≤ _ := member_le_foldr_max _ _ hin
    have hfind : ((q :: qs).find? (fun ad =>
        scoreEqb (ucb1 ad.2.value ad.2.visits nd.visits c)
          (((q :: qs).map
            (fun ad => ucb1 ad.2.value ad.2.visits nd.visits c)).foldr max ⊥))).isSome := by
      apply List.find?_isSome.mpr
      refine ⟨(a0, d0), hmem, ?_⟩
      rw [scoreEqb_eq_true_iff, hmtop, (ucb1_eq_top_iff _ _ _ _).mpr hdv0]
    rcases hres : (q :: qs).find? (fun ad =>
        scoreEqb (ucb1 ad.2.value ad.2.visits nd.visits c)
          (((q :: qs).map
            (fun ad => ucb1 ad.2.value ad.2.visits nd.visits c)).foldr max ⊥))
        with _ | res
    · rw [hres] at hfind; simp at hfind
    · have hpred := List.find?_some hres
      rw [scoreEqb_eq_true_iff] at hpred
      have hresv : res.2.visits = 0 := by
        apply (ucb1_eq_top_iff res.2.value res.2.visits nd.visits c).mp
        rw [hpred, hmtop]
      have hresmem := List.mem_of_find?_eq_some hres
      rw [← hpairs] at hresmem
      obtain ⟨a', ha', hfa⟩ := List.mem_filterMap.mp hresmem
      rcases htg' : treeGet t (p ++ [a']) with _ | d'
      · rw [htg'] at hfa; cases hfa
      · rw [htg'] at hfa
        simp only [Option.map_some', Option.some.injEq] at hfa
        rw [hres]
        simp only [Option.map_some', Option.some_bind]
        rw [show res.1 = a' from by rw [← hfa]]
        rw [htg']
        simp only [Option.map_some', Option.some.injEq]
        rw [show d' = res.2 from by rw [← hfa], hresv]

/-- Witness for `ucb1_selection`: with an unvisited `"stay"` child present,
`best_child` selects a child with zero visits. -/
theorem ucb1_selection_witness :
    (best_child_action ucbWitnessTree [] (7 / 5)).bind
      (fun a => (treeGet ucbWitnessTree [a]).map (fun d => d.visits)) = some 0 :=
  (ucb1_selection ucbWitnessTree [] (7 / 5)
    { stateAddr := 0, childActions := ["hit", "stay"], visits := 3, value := 10 }
    rfl (by decide)).2.2

/-- A fold preserves any invariant its step preserves. -/
theorem foldl_invariant {α β : Type} (f : α → β → α) (P : α → Prop)
    (hf : ∀ st a, P st → P (f st a)) :
    ∀ (l : List β) (st : α), P st → P (l.foldl f st) := by
  intro l
  induction l with
  | nil => intro st h; exact h
  | cons b bs ih => intro st h; exact ih (f st b) (hf st b h)

/-- The node stored at a path is the data of some tree entry. -/
theorem treeGet_mem (t : MTree) (p : List String) (d : NodeData)
    (h : treeGet t p = some d) : ∃ q ∈ t, q.2 = d := by
  unfold treeGet at h
  rcases hf : t.find? (fun e => e.1 == p) with _ | q
  · rw [hf] at h; cases h
  · rw [hf] at h
    simp only [Option.map_some', Option.some.injEq] at h
    exact ⟨q, List.mem_of_find?_eq_some hf, h⟩

/-- `expandStep` keeps every node of an all-unvisited tree unvisited (the
freshly attached child starts at zero visits and `treeSet` does not touch
visit counts). -/
theorem expandStep_visits_zero (shuf : ℕ → List Card → List Card)
    (p : List String) (st : Heap × MTree × ℕ) (a : String)
    (ht : ∀ e ∈ st.2.1, e.2.visits = 0) :
    ∀ e ∈ (expandStep shuf p st a).2.1, e.2.visits = 0 := by
  unfold expandStep
  rcases htg : treeGet st.2.1 p with _ | nd'
  · exact ht
  · by_cases hmem : a ∈ nd'.childActions
    · simp only [if_pos hmem]
      exact ht
    · simp only [if_neg hmem]
      intro e he
      rcases List.mem_append.mp he with hleft | hright
      · obtain ⟨y, hy, hey⟩ := List.mem_map.mp hleft
        obtain ⟨q, hq, hqd⟩ := treeGet_mem _ _ _ htg
        by_cases hyp : (y.1 == p) = true
        · rw [if_pos hyp] at hey
          subst hey
          simpa using ht q hq ▸ (by simp [← hqd])
        · rw [if_neg (by simpa using hyp)] at hey
          subst hey
          exact ht y hy
      · simp only [List.mem_singleton] at hright
        subst hright
        rfl

/-- If every node of the tree is unvisited, the final selection loop keeps
its `-inf` initial best and returns `None` (Python's undefined result). -/
theorem finalSelect_none (t : MTree) (ht : ∀ e ∈ t, e.2.visits = 0) :
    finalSelect t = none := by
  unfold finalSelect
  rcases htr : treeGet t [] with _ | nd
  · simp only [htr]
  · simp only [htr]
    have hstep : ∀ (l : List String) (acc : Option String × Option ℝ),
        l.foldl (fun (acc : Option String × Option ℝ) a =>
          if optGt (match treeGet t [a] with
              | some d => if d.visits = 0 then none else some (d.value / d.visits)
              | none => none) acc.2 then
            (some a, (match treeGet t [a] with
              | some d => if d.visits = 0 then none else some (d.value / d.visits)
              | none => none))
          else acc) acc = acc := by
      intro l
      induction l with
      | nil => intro acc; rfl
      | cons b bs ih =>
        intro acc
        have hscore : (match treeGet t [b] with
            | some d => if d.visits = 0 then none else some (d.value / d.visits)
            | none => (none : Option ℝ)) = none := by
          rcases htb : treeGet t [b] with _ | d
          · rfl
          · obtain ⟨q, hq, hqd⟩ := treeGet_mem _ _ _ htb
            have hdv : d.visits = 0 := by rw [← hqd]; exact ht q hq
            simp [hdv]
        simp only [List.foldl_cons, hscore]
        exact ih acc
    rw [hstep]

/-- C2 (amended): with a simulation budget of zero, every root child created
by the eager expansion still has zero visits when the final selection runs,
every score is `-inf`, `-inf > -inf` is false, and `run` returns `None`
(Python's undefined result) — not an action. -/
theorem run_zero_sims (shuf : ℕ → List Card → List Card) (choice : ℕ → ℕ)
    (w c : ℝ) (rolloutFuel : ℕ) (h : Heap) (a : ℕ) :
    (run shuf choice w c rolloutFuel h a 0).2 = none := by
  unfold run
  simp only [List.range_zero, List.foldl_nil]
  apply finalSelect_none
  unfold expand
  rcases htg : treeGet [([],
      { stateAddr := (cloneGS h a).2, childActions := [], visits := 0, value := 0 })]
      ([] : List String) with _ | nd
  · intro e he
    simp only [List.mem_singleton] at he
    subst he
    rfl
  · apply foldl_invariant (expandStep shuf []) (fun st => ∀ e ∈ st.2.1, e.2.visits = 0)
      (fun st a2 hst => expandStep_visits_zero shuf [] st a2 hst)
    intro e he
    simp only [List.mem_singleton] at he
    subst he
    rfl

/-- C2 counterexample: on a state with legal actions (`hit`/`stay`
available), `run` with a simulation budget of zero returns `None` — an
undefined result, not an action. -/
theorem run_zero_sims_counterexample :
    (readGS mctsH0 3).map (fun gs => gs.legal_actions) = some ["hit", "stay"] ∧
    (run (fun _ l => l) (fun _ => 0) 50 (7 / 5) 5 mctsH0 3 0).2 = none := by
  constructor
  · rfl
  · rfl

/-- Explicit successful result of `apply_action('stay')`: bank, advance, and
an outcome dictionary carrying only `result` and `banked` — no `round_end`
key. -/
theorem apply_stay_ok (gs : GameState) (hmem : "stay" ∈ gs.legal_actions) :
    gs.apply_action "stay" =
      .ok ((let gs1 := ({ gs with round_over := false } : GameState).bank_current
            { gs1 with
              current_player := (gs1.current_player + 1) % gs1.num_players
              round_over := false }),
        { result := "stayed", banked := some (.flag true) }) := by
  simp [GameState.apply_action, if_pos hmem]

/-- Unfolding of one rollout-loop iteration at positive fuel. -/
theorem dp_loop_succ (choice : ℕ → ℕ) (fuel : ℕ) (h : Heap) (a k : ℕ)
    (f7 : Bool) :
    dp_loop choice (fuel + 1) h a k f7 =
      match readGS h a with
      | none => (h, k, f7)
      | some gs =>
        if gs.game_over || gs.deck.isEmpty then (h, k, f7)
        else
          let actions := gs.legal_actions
          if actions.isEmpty then (h, k, f7)
          else
            let act := actions.getD (choice k % actions.length) "hit"
            let r := apply_action_heap h a act
            match r.2 with
            | none => (r.1, k + 1, f7)
            | some o =>
              let f7' := f7 || (o.result == "flip7")
              if o.round_end.getD false then (r.1, k + 1, f7')
              else dp_loop choice fuel r.1 a (k + 1) f7' := by
  rfl

/-- C9: the outcome record of a legal `stay` carries no round-end flag
(`round_end` is absent, only `result` and `banked` are present), and as a
consequence the random rollout of `default_policy` does not stop at a round
that ended by staying: when the rollout's chosen action is `stay` on a live
state (not game over, deck nonempty), the loop continues into the next
iteration on the post-stay heap rather than returning. -/
theorem stay_no_round_end :
    (∀ gs : GameState, "stay" ∈ gs.legal_actions →
      (gs.apply_action "stay").toOption.map
        (fun pr => (pr.2.result, pr.2.round_end, pr.2.banked)) =
        some ("stayed", none, some (.flag true))) ∧
    (∀ (choice : ℕ → ℕ) (fuel : ℕ) (h : Heap) (a k : ℕ) (f7 : Bool)
      (gs : GameState), readGS h a = some gs →
      gs.game_over = false → gs.deck ≠ [] →
      "stay" ∈ gs.legal_actions →
      gs.legal_actions.getD (choice k % gs.legal_actions.length) "hit" = "stay" →
      dp_loop choice (fuel + 1) h a k f7 =
        dp_loop choice fuel (apply_action_heap h a "stay").1 a (k + 1) f7) := by
  constructor
  · intro gs hmem
    rw [apply_stay_ok gs hmem]
    rfl
  · intro choice fuel h a k f7 gs hread hgo hdeck hmem hact
    have hde : gs.deck.isEmpty = false := by
      simpa [List.isEmpty_iff] using hdeck
    have hle : gs.legal_actions.isEmpty = false := by
      rcases hla : gs.legal_actions with _ | _
      · rw [hla] at hmem; cases hmem
      · rfl
    rw [dp_loop_succ, hread]
    simp only [hgo, hde, Bool.or_self, if_false, hle, hact,
      Bool.false_eq_true, apply_action_heap, hread, apply_stay_ok gs hmem]
    simp

/-- Witness for `stay_no_round_end`: on the concrete heap `mctsH0` (a live
two-player state with `stay` legal), a rollout iteration whose choice stream
picks `stay` continues into the next iteration on the post-stay heap. -/
theorem stay_no_round_end_witness :
    ((({ num_players := 2
         player_totals := [0, 0]
         current_player := 0
         deck := [Card.number 3]
         current_numbers := []
         flat_modifiers := 0
         x2 := false
         second_chance_count := 0
         round_over := false
         winner := none } : GameState).apply_action "stay").toOption.map
        (fun pr => (pr.2.result, pr.2.round_end, pr.2.banked)) =
      some ("stayed", none, some (.flag true))) ∧
    dp_loop (fun _ => 1) 1 mctsH0 3 0 false =
      dp_loop (fun _ => 1) 0 (apply_action_heap mctsH0 3 "stay").1 3 1 false :=
  ⟨stay_no_round_end.1 _ (by decide),
   stay_no_round_end.2 (fun _ => 1) 0 mctsH0 3 0 false
     { num_players := 2
       player_totals := [0, 0]
       current_player := 0
       deck := [Card.number 3]
       current_numbers := []
       flat_modifiers := 0
       x2 := false
       second_chance_count := 0
       round_over := false
       winner := none } rfl rfl (by decide) (by decide) (by decide)⟩

/-- A successful lookup is in range. -/
theorem lookup_lt_of_some (h : Heap) (a : ℕ) (c : Cell)
    (hl : h.lookup a = some c) : a < h.store.length :=
  (List.getElem?_eq_some.mp hl).1

/-- `ExtBelow` is reflexive on sufficiently large heaps. -/
theorem ExtBelow_refl (n : ℕ) (h : Heap) (hn : n ≤ h.store.length) :
    ExtBelow n h h :=
  ⟨hn, fun _ _ => rfl⟩

/-- `ExtBelow` composes. -/
theorem ExtBelow_trans (n : ℕ) (h1 h2 h3 : Heap)
    (h12 : ExtBelow n h1 h2) (h23 : ExtBelow n h2 h3) : ExtBelow n h1 h3 :=
  ⟨h23.1, fun i hi => (h23.2 i hi).trans (h12.2 i hi)⟩

/-- Updating at an address `≥ n` leaves everything below `n` alone. -/
theorem ExtBelow_update (n : ℕ) (h : Heap) (a : ℕ) (c : Cell)
    (hn : n ≤ h.store.length) (ha : n ≤ a) : ExtBelow n h (h.update a c) := by
  refine ⟨by simpa [Heap.update] using hn, fun i hi => ?_⟩
  have : i ≠ a := by omega
  simp [Heap.update, Heap.lookup, List.getElem?_set_ne (by omega : a ≠ i)]

/-- Updating with a cell whose object addresses (if any) are `≥ n` preserves
`SafeHeap`. -/
theorem SafeHeap_update (n : ℕ) (h : Heap) (a : ℕ) (c : Cell)
    (hs : SafeHeap n h)
    (hc : ∀ d, c = Cell.gsc d →
      n ≤ d.totals_addr ∧ n ≤ d.numbers_addr ∧ n ≤ d.deck_addr) :
    SafeHeap n (h.update a c) := by
  intro b d hb hl
  by_cases hba : b = a
  · subst hba
    rcases hblen : decide (b < h.store.length) with _ | _
    · have hnb : ¬b < h.store.length := of_decide_eq_false hblen
      rw [show (h.update b c).lookup b = h.lookup b from by
        unfold Heap.update Heap.lookup
        rw [List.set_eq_of_length_le (by omega)]] at hl
      exact hs b d hb hl
    · have hlt : b < h.store.length := of_decide_eq_true hblen
      have : (h.update b c).lookup b = some c := by
        simp [Heap.update, Heap.lookup, List.getElem?_set_self', hlt,
          List.getElem?_eq_getElem hlt]
      rw [this] at hl
      exact hc d (by injection hl)
  · rw [show (h.update a c).lookup b = h.lookup b from by
      simp [Heap.update, Heap.lookup, List.getElem?_set_ne (by omega : a ≠ b)]] at hl
    exact hs b d hb hl

/-- Allocation leaves everything below the old length alone. -/
theorem ExtBelow_alloc (n : ℕ) (h : Heap) (c : Cell)
    (hn : n ≤ h.store.length) : ExtBelow n h (h.alloc c).1 := by
  refine ⟨by simp [Heap.alloc]; omega, fun i hi => ?_⟩
  simp [Heap.alloc, Heap.lookup, List.getElem?_append_left (by omega : i < h.store.length)]

/-- Allocating a cell whose object addresses (if any) are `≥ n` preserves
`SafeHeap`. -/
theorem SafeHeap_alloc (n : ℕ) (h : Heap) (c : Cell)
    (hs : SafeHeap n h)
    (hc : ∀ d, c = Cell.gsc d →
      n ≤ d.totals_addr ∧ n ≤ d.numbers_addr ∧ n ≤ d.deck_addr) :
    SafeHeap n (h.alloc c).1 := by
  intro b d hb hl
  rcases Nat.lt_trichotomy b h.store.length with hlt | heq | hgt
  · rw [show (h.alloc c).1.lookup b = h.lookup b from by
      simp [Heap.alloc, Heap.lookup, List.getElem?_append_left hlt]] at hl
    exact hs b d hb hl
  · subst heq
    have : (h.alloc c).1.lookup h.store.length = some c := by
      simp [Heap.alloc, Heap.lookup]
    rw [this] at hl
    exact hc d (by injection hl)
  · have : (h.alloc c).1.lookup b = none := by
      apply List.getElem?_eq_none
      simp [Heap.alloc]
      omega
    rw [this] at hl
    cases hl

/-- Length bookkeeping for `alloc`. -/
theorem alloc_length (h : Heap) (c : Cell) :
    (h.alloc c).1.store.length = h.store.length + 1 := by
  simp [Heap.alloc]

/-- Allocating a fresh object touches nothing below the old heap length and
creates only cells whose addresses point at or above it. -/
theorem allocFreshGS_frame (n : ℕ) (h : Heap) (gs : GameState)
    (hn : n ≤ h.store.length) (hs : SafeHeap n h) :
    ExtBelow n h (allocFreshGS h gs).1 ∧ SafeHeap n (allocFreshGS h gs).1 ∧
      n ≤ (allocFreshGS h gs).2 ∧
      h.store.length ≤ (allocFreshGS h gs).1.store.length := by
  unfold allocFreshGS
  have e1 := ExtBelow_alloc n h (.ints gs.player_totals) hn
  have s1 := SafeHeap_alloc n h (.ints gs.player_totals) hs (fun d hd => by cases hd)
  have e2 := ExtBelow_alloc n _ (.ints gs.current_numbers) e1.1
  have s2 := SafeHeap_alloc n _ (.ints gs.current_numbers) s1 (fun d hd => by cases hd)
  have e3 := ExtBelow_alloc n _ (.cards gs.deck) e2.1
  have s3 := SafeHeap_alloc n _ (.cards gs.deck) s2 (fun d hd => by cases hd)
  have hsub : n ≤ h.store.length ∧
      n ≤ (h.alloc (.ints gs.player_totals)).1.store.length ∧
      n ≤ ((h.alloc (.ints gs.player_totals)).1.alloc
        (.ints gs.current_numbers)).1.store.length := by
    simp only [alloc_length]
    omega
  have e4 := ExtBelow_alloc n _ (.gsc
    { num_players := gs.num_players
      current_player := gs.current_player
      flat_modifiers := gs.flat_modifiers
      x2 := gs.x2
      second_chance_count := gs.second_chance_count
      round_over := gs.round_over
      winner := gs.winner
      totals_addr := h.store.length
      numbers_addr := (h.alloc (.ints gs.player_totals)).1.store.length
      deck_addr := ((h.alloc (.ints gs.player_totals)).1.alloc
        (.ints gs.current_numbers)).1.store.length }) e3.1
  have s4 := SafeHeap_alloc n _ (.gsc
    { num_players := gs.num_players
      current_player := gs.current_player
      flat_modifiers := gs.flat_modifiers
      x2 := gs.x2
      second_chance_count := gs.second_chance_count
      round_over := gs.round_over
      winner := gs.winner
      totals_addr := h.store.length
      numbers_addr := (h.alloc (.ints gs.player_totals)).1.store.length
      deck_addr := ((h.alloc (.ints gs.player_totals)).1.alloc
        (.ints gs.current_numbers)).1.store.length }) s3
    (fun d hd => by
      injection hd with hd'
      subst hd'
      exact ⟨hsub.1, hsub.2.1, hsub.2.2⟩)
  refine ⟨ExtBelow_trans n _ _ _ (ExtBelow_trans n _ _ _
    (ExtBelow_trans n _ _ _ e1 e2) e3) e4, s4, ?_, ?_⟩
  · simp [Heap.alloc]
    omega
  · simp [Heap.alloc]

/-- `cloneGS` frame facts: nothing below the old length changes, the fresh
object lives at or above it, and safety is preserved. -/
theorem cloneGS_frame (n : ℕ) (h : Heap) (a : ℕ)
    (hn : n ≤ h.store.length) (hs : SafeHeap n h) :
    ExtBelow n h (cloneGS h a).1 ∧ SafeHeap n (cloneGS h a).1 ∧
      n ≤ (cloneGS h a).2 ∧
      h.store.length ≤ (cloneGS h a).1.store.length :=
  allocFreshGS_frame n h _ hn hs

/-- Shuffling through an object reference at or above `n` touches nothing
below `n`. -/
theorem shuffleAt_frame (n : ℕ) (f : List Card → List Card) (h : Heap) (a : ℕ)
    (hn : n ≤ h.store.length) (hs : SafeHeap n h) (ha : n ≤ a) :
    ExtBelow n h (shuffleAt f h a) ∧ SafeHeap n (shuffleAt f h a) ∧
      (shuffleAt f h a).store.length = h.store.length := by
  unfold shuffleAt
  rcases hl : h.lookup a with _ | c
  · simp only [hl]
    exact ⟨ExtBelow_refl n h hn, hs, by trivial⟩
  · rcases c with d | l | l
    · simp only [hl]
      rcases hld : h.lookup d.deck_addr with _ | c2
      · simp only [hld]
        exact ⟨ExtBelow_refl n h hn, hs, by trivial⟩
      · rcases c2 with d2 | l2 | l2
        · simp only [hld]
          exact ⟨ExtBelow_refl n h hn, hs, by trivial⟩
        · simp only [hld]
          exact ⟨ExtBelow_refl n h hn, hs, by trivial⟩
        · simp only [hld]
          have hda : n ≤ d.deck_addr := (hs a d ha hl).2.2
          exact ⟨ExtBelow_update n h _ _ hn hda,
            SafeHeap_update n h _ _ hs (fun d' hd' => by cases hd'),
            by simp [Heap.update]⟩
    · simp only [hl]
      exact ⟨ExtBelow_refl n h hn, hs, by trivial⟩
    · simp only [hl]
      exact ⟨ExtBelow_refl n h hn, hs, by trivial⟩

/-- Writing a state back through an object reference at or above `n` touches
nothing below `n`. -/
theorem writeGS_frame (n : ℕ) (h : Heap) (a : ℕ) (gs : GameState)
    (hn : n ≤ h.store.length) (hs : SafeHeap n h) (ha : n ≤ a) :
    ExtBelow n h (writeGS h a gs) ∧ SafeHeap n (writeGS h a gs) ∧
      (writeGS h a gs).store.length = h.store.length := by
  unfold writeGS
  rcases hl : h.lookup a with _ | c
  · simp only [hl]
    exact ⟨ExtBelow_refl n h hn, hs, by trivial⟩
  · rcases c with d | l | l
    · simp only [hl]
      have hsub := hs a d ha hl
      have e1 := ExtBelow_update n h d.totals_addr (.ints gs.player_totals) hn hsub.1
      have s1 := SafeHeap_update n h d.totals_addr (.ints gs.player_totals) hs
        (fun d' hd' => by cases hd')
      have l1 : (h.update d.totals_addr (.ints gs.player_totals)).store.length =
          h.store.length := by simp [Heap.update]
      have e2 := ExtBelow_update n _ d.numbers_addr (.ints gs.current_numbers)
        (by rw [l1]; exact hn) hsub.2.1
      have s2 := SafeHeap_update n _ d.numbers_addr (.ints gs.current_numbers) s1
        (fun d' hd' => by cases hd')
      have l2 : ((h.update d.totals_addr (.ints gs.player_totals)).update
          d.numbers_addr (.ints gs.current_numbers)).store.length =
          h.store.length := by simp [Heap.update]
      have e3 := ExtBelow_update n _ d.deck_addr (.cards gs.deck)
        (by rw [l2]; exact hn) hsub.2.2
      have s3 := SafeHeap_update n _ d.deck_addr (.cards gs.deck) s2
        (fun d' hd' => by cases hd')
      have l3 : (((h.update d.totals_addr (.ints gs.player_totals)).update
          d.numbers_addr (.ints gs.current_numbers)).update
          d.deck_addr (.cards gs.deck)).store.length = h.store.length := by
        simp [Heap.update]
      have e4 := ExtBelow_update n _ a (.gsc { d with
          num_players := gs.num_players
          current_player := gs.current_player
          flat_modifiers := gs.flat_modifiers
          x2 := gs.x2
          second_chance_count := gs.second_chance_count
          round_over := gs.round_over
          winner := gs.winner }) (by rw [l3]; exact hn) ha
      have s4 := SafeHeap_update n _ a (.gsc { d with
          num_players := gs.num_players
          current_player := gs.current_player
          flat_modifiers := gs.flat_modifiers
          x2 := gs.x2
          second_chance_count := gs.second_chance_count
          round_over := gs.round_over
          winner := gs.winner }) s3
        (fun d' hd' => by
          injection hd' with hd''
          subst hd''
          exact ⟨hsub.1, hsub.2.1, hsub.2.2⟩)
      exact ⟨ExtBelow_trans n _ _ _ (ExtBelow_trans n _ _ _
        (ExtBelow_trans n _ _ _ e1 e2) e3) e4, s4, by simp [Heap.update]⟩
    · simp only [hl]
      exact ⟨ExtBelow_refl n h hn, hs, by trivial⟩
    · simp only [hl]
      exact ⟨ExtBelow_refl n h hn, hs, by trivial⟩

/-- `apply_action` through a reference at or above `n` touches nothing below
`n`. -/
theorem apply_action_heap_frame (n : ℕ) (h : Heap) (a : ℕ) (action : String)
    (hn : n ≤ h.store.length) (hs : SafeHeap n h) (ha : n ≤ a) :
    ExtBelow n h (apply_action_heap h a action).1 ∧
      SafeHeap n (apply_action_heap h a action).1 ∧
      (apply_action_heap h a action).1.store.length = h.store.length := by
  unfold apply_action_heap
  rcases hr : readGS h a with _ | gs
  · simp only [hr]
    exact ⟨ExtBelow_refl n h hn, hs, by trivial⟩
  · simp only [hr]
    rcases hap : gs.apply_action action with e | pr
    · simp only [hap]
      exact ⟨ExtBelow_refl n h hn, hs, by trivial⟩
    · simp only [hap]
      exact writeGS_frame n h a pr.1 hn hs ha

/-- The rollout loop mutates only through an object reference at or above
`n`, hence touches nothing below `n`. -/
theorem dp_loop_frame (n : ℕ) (choice : ℕ → ℕ) (fuel : ℕ) :
    ∀ (h : Heap) (a k : ℕ) (f7 : Bool), n ≤ h.store.length → SafeHeap n h →
    n ≤ a →
    ExtBelow n h (dp_loop choice fuel h a k f7).1 ∧
      SafeHeap n (dp_loop choice fuel h a k f7).1 := by
  induction fuel with
  | zero =>
    intro h a k f7 hn hs ha
    exact ⟨ExtBelow_refl n h hn, hs⟩
  | succ fuel ih =>
    intro h a k f7 hn hs ha
    rw [dp_loop_succ]
    rcases hr : readGS h a with _ | gs
    · simp only [hr]
      exact ⟨ExtBelow_refl n h hn, hs⟩
    · simp only [hr]
      split
      · exact ⟨ExtBelow_refl n h hn, hs⟩
      · split
        · exact ⟨ExtBelow_refl n h hn, hs⟩
        · have HF := apply_action_heap_frame n h a
            (gs.legal_actions.getD (choice k % gs.legal_actions.length) "hit")
            hn hs ha
          split
          · exact ⟨HF.1, HF.2.1⟩
          · next o ho =>
            split
            · exact ⟨HF.1, HF.2.1⟩
            · have IH := ih (apply_action_heap h a
                (gs.legal_actions.getD (choice k % gs.legal_actions.length)
                  "hit")).1 a (k + 1) (f7 || (o.result == "flip7"))
                (HF.2.2 ▸ hn) HF.2.1 ha
              exact ⟨ExtBelow_trans n _ _ _ HF.1 IH.1, IH.2⟩

/-- A rollout from any reference mutates only its own deep clone, hence
touches nothing below `n`. -/
theorem default_policy_frame (n : ℕ) (choice : ℕ → ℕ) (w : ℝ) (fuel : ℕ)
    (h : Heap) (a k : ℕ) (hn : n ≤ h.store.length) (hs : SafeHeap n h) :
    ExtBelow n h (default_policy choice w fuel h a k).1 ∧
      SafeHeap n (default_policy choice w fuel h a k).1 := by
  simp only [default_policy]
  have CF := cloneGS_frame n h a hn hs
  have DF := dp_loop_frame n choice fuel (cloneGS h a).1 (cloneGS h a).2 k false
    CF.1.1 CF.2.1 CF.2.2.1
  exact ⟨ExtBelow_trans n _ _ _ CF.1 DF.1, DF.2⟩

/-- One expansion step mutates only freshly cloned storage. -/
theorem expandStep_frame (n : ℕ) (shuf : ℕ → List Card → List Card)
    (p : List String) (st : Heap × MTree × ℕ) (a : String)
    (hn : n ≤ st.1.store.length) (hs : SafeHeap n st.1) :
    ExtBelow n st.1 (expandStep shuf p st a).1 ∧
      SafeHeap n (expandStep shuf p st a).1 := by
  unfold expandStep
  rcases htg : treeGet st.2.1 p with _ | nd'
  · simp only [htg]
    exact ⟨ExtBelow_refl n st.1 hn, hs⟩
  · simp only [htg]
    split
    · exact ⟨ExtBelow_refl n st.1 hn, hs⟩
    · have CF := cloneGS_frame n st.1 nd'.stateAddr hn hs
      have SF := shuffleAt_frame n (shuf st.2.2) (cloneGS st.1 nd'.stateAddr).1
        (cloneGS st.1 nd'.stateAddr).2 CF.1.1 CF.2.1 CF.2.2.1
      exact ⟨ExtBelow_trans n _ _ _ CF.1 SF.1, SF.2.1⟩

/-- Expansion of a node mutates only freshly cloned storage. -/
theorem expand_frame (n : ℕ) (shuf : ℕ → List Card → List Card) (h : Heap)
    (t : MTree) (p : List String) (k : ℕ)
    (hn : n ≤ h.store.length) (hs : SafeHeap n h) :
    ExtBelow n h (expand shuf h t p k).1 ∧ SafeHeap n (expand shuf h t p k).1 := by
  unfold expand
  rcases htg : treeGet t p with _ | nd
  · simp only [htg]
    exact ⟨ExtBelow_refl n h hn, hs⟩
  · simp only [htg]
    exact foldl_invariant (expandStep shuf p)
      (fun st => ExtBelow n h st.1 ∧ SafeHeap n st.1)
      (fun st a hst => ⟨ExtBelow_trans n _ _ _ hst.1
          (expandStep_frame n shuf p st a hst.1.1 hst.2).1,
        (expandStep_frame n shuf p st a hst.1.1 hst.2).2⟩)
      (match readGS h nd.stateAddr with
        | some gs => gs.legal_actions
        | none => []) (h, t, k) ⟨ExtBelow_refl n h hn, hs⟩

/-- One search iteration (selection, expansion, rollout, backpropagation)
touches nothing below `n`. -/
theorem simStep_frame (n : ℕ) (shuf : ℕ → List Card → List Card)
    (choice : ℕ → ℕ) (w c : ℝ) (rolloutFuel : ℕ) (st : Heap × MTree × ℕ)
    (hn : n ≤ st.1.store.length) (hs : SafeHeap n st.1) :
    ExtBelow n st.1 (simStep shuf choice w c rolloutFuel st).1 ∧
      SafeHeap n (simStep shuf choice w c rolloutFuel st).1 := by
  have EX : ExtBelow n st.1 (selectExpandPhase shuf choice c st).1 ∧
      SafeHeap n (selectExpandPhase shuf choice c st).1 := by
    unfold selectExpandPhase
    rcases htg : treeGet st.2.1 (selectPath c st.2.1 (st.2.1.length + 1) [])
        with _ | nd
    · simp only [htg]
      exact ⟨ExtBelow_refl n st.1 hn, hs⟩
    · simp only [htg]
      split
      · have EF := expand_frame n shuf st.1 st.2.1
          (selectPath c st.2.1 (st.2.1.length + 1) []) st.2.2 hn hs
        split
        · split
          · exact EF
          · exact EF
        · exact EF
      · exact ⟨ExtBelow_refl n st.1 hn, hs⟩
  unfold simStep
  rcases htg2 : treeGet (selectExpandPhase shuf choice c st).2.1
      (selectExpandPhase shuf choice c st).2.2.2 with _ | nd
  · simp only [htg2]
    exact EX
  · simp only [htg2]
    have CF := cloneGS_frame n (selectExpandPhase shuf choice c st).1
      nd.stateAddr EX.1.1 EX.2
    have SF := shuffleAt_frame n (shuf (selectExpandPhase shuf choice c st).2.2.1)
      (cloneGS (selectExpandPhase shuf choice c st).1 nd.stateAddr).1
      (cloneGS (selectExpandPhase shuf choice c st).1 nd.stateAddr).2
      CF.1.1 CF.2.1 CF.2.2.1
    have DF := default_policy_frame n choice w rolloutFuel _
      (cloneGS (selectExpandPhase shuf choice c st).1 nd.stateAddr).2
      ((selectExpandPhase shuf choice c st).2.2.1 + 1) SF.1.1 SF.2.1
    exact ⟨ExtBelow_trans n _ _ _ EX.1 (ExtBelow_trans n _ _ _ CF.1
      (ExtBelow_trans n _ _ _ SF.1 DF.1)), DF.2⟩

/-- Reading a valid reference is unaffected by a heap extension that keeps
everything below the original length. -/
theorem readGS_ExtBelow (h h' : Heap) (EB : ExtBelow h.store.length h h')
    (hwf : HeapWF h) (a : ℕ) (gs : GameState)
    (hread : readGS h a = some gs) : readGS h' a = some gs := by
  unfold readGS at hread ⊢
  rcases hl : h.lookup a with _ | c
  · simp [hl] at hread
  · rcases c with d | l | l
    · simp only [hl] at hread
      have ha : a < h.store.length := lookup_lt_of_some h a _ hl
      have hmem : Cell.gsc d ∈ h.store := List.getElem?_mem hl
      have hcw := hwf _ hmem
      have hl' : h'.lookup a = some (.gsc d) := by
        show h'.lookup a = _
        rw [EB.2 a ha, hl]
      simp only [hl']
      rw [show h'.lookup d.totals_addr = h.lookup d.totals_addr from
        EB.2 d.totals_addr hcw.1]
      rw [show h'.lookup d.numbers_addr = h.lookup d.numbers_addr from
        EB.2 d.numbers_addr hcw.2.1]
      rw [show h'.lookup d.deck_addr = h.lookup d.deck_addr from
        EB.2 d.deck_addr hcw.2.2]
      exact hread
    · simp [hl] at hread
    · simp [hl] at hread

/-- C7: `run` leaves the caller-supplied state entirely unchanged.  On a
well-formed heap, for any randomness streams, reward weight, exploration
constant, rollout fuel and simulation budget, reading the caller's reference
after `run` yields exactly the state it held before: deck contents,
per-player totals, round state, current player and winner are all intact,
because determinization, expansion and rollouts operate only on deep clones
allocated above the caller's storage. -/
theorem run_preserves_caller (shuf : ℕ → List Card → List Card)
    (choice : ℕ → ℕ) (w c : ℝ) (rolloutFuel : ℕ) (h : Heap) (a : ℕ)
    (sims : ℕ) (gs : GameState)
    (hwf : HeapWF h) (hread : readGS h a = some gs) :
    readGS (run shuf choice w c rolloutFuel h a sims).1 a = some gs := by
  have hs0 : SafeHeap h.store.length h := by
    intro b d hb hl
    have := lookup_lt_of_some h b _ hl
    omega
  have CF := cloneGS_frame h.store.length h a le_rfl hs0
  have SF := shuffleAt_frame h.store.length (shuf 0) (cloneGS h a).1
    (cloneGS h a).2 CF.1.1 CF.2.1 CF.2.2.1
  have EF := expand_frame h.store.length shuf
    (shuffleAt (shuf 0) (cloneGS h a).1 (cloneGS h a).2)
    [([], { stateAddr := (cloneGS h a).2, childActions := [], visits := 0,
            value := 0 })] [] 1 SF.1.1 SF.2.1
  have FL := foldl_invariant
    (fun (st : Heap × MTree × ℕ) (_ : ℕ) => simStep shuf choice w c rolloutFuel st)
    (fun st => ExtBelow h.store.length h st.1 ∧ SafeHeap h.store.length st.1)
    (fun st _ hst => ⟨ExtBelow_trans _ _ _ _ hst.1
        (simStep_frame _ shuf choice w c rolloutFuel st hst.1.1 hst.2).1,
      (simStep_frame _ shuf choice w c rolloutFuel st hst.1.1 hst.2).2⟩)
    (List.range sims)
    ((expand shuf (shuffleAt (shuf 0) (cloneGS h a).1 (cloneGS h a).2)
        [([], { stateAddr := (cloneGS h a).2, childActions := [], visits := 0,
                value := 0 })] [] 1).1,
      (expand shuf (shuffleAt (shuf 0) (cloneGS h a).1 (cloneGS h a).2)
        [([], { stateAddr := (cloneGS h a).2, childActions := [], visits := 0,
                value := 0 })] [] 1).2.1,
      (expand shuf (shuffleAt (shuf 0) (cloneGS h a).1 (cloneGS h a).2)
        [([], { stateAddr := (cloneGS h a).2, childActions := [], visits := 0,
                value := 0 })] [] 1).2.2)
    ⟨ExtBelow_trans _ _ _ _ (ExtBelow_trans _ _ _ _ CF.1 SF.1) EF.1, EF.2⟩
  have EBfin : ExtBelow h.store.length h
      (run shuf choice w c rolloutFuel h a sims).1 := by
    simp only [run]
    exact FL.1
  exact readGS_ExtBelow h _ EBfin hwf a gs hread

/-- Witness for `run_preserves_caller`: on the concrete well-formed heap
`mctsH0`, running one full search iteration leaves the caller's state object
untouched. -/
theorem run_preserves_caller_witness :
    readGS (run (fun _ l => l) (fun _ => 0) 50 (7 / 5) 5 mctsH0 3 1).1 3 =
      some
        { num_players := 2
          player_totals := [0, 0]
          current_player := 0
          deck := [Card.number 3]
          current_numbers := []
          flat_modifiers := 0
          x2 := false
          second_chance_count := 0
          round_over := false
          winner := none } :=
  run_preserves_caller (fun _ l => l) (fun _ => 0) 50 (7 / 5) 5 mctsH0 3 1
    { num_players := 2
      player_totals := [0, 0]
      current_player := 0
      deck := [Card.number 3]
      current_numbers := []
      flat_modifiers := 0
      x2 := false
      second_chance_count := 0
      round_over := false
      winner := none } (by decide) rfl
